import Mathlib

/-!
Shallow embedding of the core analytical modules of the loteria repository
(per-number probability scoring, combination scoring, hot/cold analysis,
frequency model, draw/bet checking, combination generation), together with
theorems settling the specification's claims about them.

Conventions of the embedding:

* JavaScript numbers are modelled as `ℤ` where the source only ever holds
  integers and as `ℚ` where divisions occur.  Every integer the source
  manipulates is far below `2 ^ 53`, so integer arithmetic is exact in IEEE
  doubles and the `ℤ` model is faithful.  Rational arithmetic stands in for
  double arithmetic; the one computation whose observable value genuinely
  depends on double rounding is `winChance = (totalScore / 100) * 100` in
  `calculateNumberProbability`, and exactly there the embedding applies an
  explicit base-2 round-to-nearest-even rounding function `fl` after each
  operation, as IEEE 754 prescribes for `/` and `*`.  (The branch
  comparisons on `ratio`, `recentRate` and `midRate` are modelled with exact
  rationals; the claims settled here depend only on which integer constant a
  branch yields, with bounds that hold whichever branch fires.)
* `Array.prototype.sort` (stable since ES2019) is modelled by
  `List.insertionSort`, which is stable.
* The division `0 / 0` that `scoreCombination` performs when both input
  arrays are empty yields `NaN` in JavaScript; the score fields of
  `CombinationScore` are therefore `Option ℚ`, `none` playing the role of
  `NaN` (which propagates through `+`, `Math.min` and `Math.round`).
* `Math.sin` is implementation-approximated in ECMAScript, so the seeded
  pseudo-random source of the weighted-random selection strategies is taken
  as an explicit function parameter; the theorems about the generator
  quantify over it, hence hold for the sine-based instantiation.
-/

/-- The two number pools: main numbers (1-50) and stars (1-12); the source
passes the string literal `'numbers'` or `'stars'`. -/
inductive PoolType where
  | numbers
  | stars
deriving DecidableEq, Repr

/-- A historical draw (`Draw` interface, identical in all source modules).
Index 0 of a draw history is the most recent draw. -/
structure Draw where
  date : String
  numbers : List ℤ
  stars : List ℤ
deriving DecidableEq, Repr

/-- The selected pool of a draw: `type === 'numbers' ? draw.numbers : draw.stars`. -/
def Draw.pool (d : Draw) : PoolType → List ℤ
  | .numbers => d.numbers
  | .stars => d.stars

/-- The pool size: the `maxNumber = type === 'numbers' ? 50 : 12` branches. -/
def poolMax : PoolType → ℕ
  | .numbers => 50
  | .stars => 12

/-- How many draws of `draws` contain `number` in the selected pool: the
`appearances`/`recentCount`/`midCount` accumulators of the source, which
scan with `pool.includes(number)`. -/
def countAppearances (number : ℤ) (draws : List Draw) (type : PoolType) : ℕ :=
  (draws.filter (fun d => decide (number ∈ d.pool type))).length

/-- Index of the most recent draw containing `number` (`none` when it never
appears): the `lastSeen` scan of `calculateOverdueScore` and of
`analyzeTemperature`, whose JavaScript sentinel for `none` is `-1`. -/
def lastSeenIdx (number : ℤ) (draws : List Draw) (type : PoolType) : Option ℕ :=
  draws.findIdx? (fun d => decide (number ∈ d.pool type))

/-- `calculateFrequencyScore` (probabilityScoring.ts): band score for how
close the appearance count is to the expected count. -/
def calculateFrequencyScore (number : ℤ) (draws : List Draw) (type : PoolType) : ℤ :=
  let expectedAppearances : ℚ :=
    match type with
    | .numbers => (draws.length : ℚ) * (5 / 50)
    | .stars => (draws.length : ℚ) * (2 / 12)
  let appearances : ℕ := countAppearances number draws type
  let rr : ℚ := if 0 < expectedAppearances then (appearances : ℚ) / expectedAppearances else 0
  if 0.8 ≤ rr ∧ rr ≤ 1.2 then 40
  else if 0.6 ≤ rr ∧ rr < 0.8 then 30
  else if 1.2 < rr ∧ rr ≤ 1.5 then 35
  else if 1.5 < rr then 25
  else 20

/-- `calculateHotColdScore` (probabilityScoring.ts): recent-trend score over
the last 10 and 20 draws. -/
def calculateHotColdScore (number : ℤ) (draws : List Draw) (type : PoolType) : ℤ :=
  let recentCount := countAppearances number (draws.take 10) type
  let midCount := countAppearances number (draws.take 20) type
  let recentRate : ℚ := (recentCount : ℚ) / 10
  let midRate : ℚ := if 0 < (draws.take 20).length then (midCount : ℚ) / 20 else 0
  if 3 ≤ recentCount ∧ midRate < recentRate then 30
  else if 2 ≤ recentCount then 25
  else if recentCount = 1 then 20
  else if recentCount = 0 ∧ 2 ≤ midCount then 22
  else 15

/-- `calculatePatternScore` (probabilityScoring.ts): positional pattern
bonus; fixed at 15 for the stars pool. -/
def calculatePatternScore (number : ℤ) (type : PoolType) : ℤ :=
  match type with
  | .stars => 15
  | .numbers =>
    let s1 : ℤ := if 15 ≤ number ∧ number ≤ 35 then 10 + 5 else 10
    let s2 : ℤ := if number % 2 ≠ 0 then s1 + 3 else s1
    let s3 : ℤ := if number % 5 = 0 then s2 - 3 else s2
    max 0 (min 20 s3)

/-- `calculateOverdueScore` (probabilityScoring.ts): bonus for numbers that
have not appeared in a while; 10 when never seen in the whole history. -/
def calculateOverdueScore (number : ℤ) (draws : List Draw) (type : PoolType) : ℤ :=
  let expectedInterval : ℕ := match type with | .numbers => 10 | .stars => 6
  match lastSeenIdx number draws type with
  | none => 10
  | some lastSeen =>
    if expectedInterval * 2 < lastSeen then 10
    else if expectedInterval < lastSeen then 7
    else if lastSeen = 0 then 2
    else 5

/-- Round a rational to the nearest integer, ties to even: the rounding of
IEEE 754 round-to-nearest. -/
def rne (x : ℚ) : ℤ :=
  if x - ⌊x⌋ < 1 / 2 then ⌊x⌋
  else if 1 / 2 < x - ⌊x⌋ then ⌊x⌋ + 1
  else if ⌊x⌋ % 2 = 0 then ⌊x⌋ else ⌊x⌋ + 1

/-- Scan for the binade of `q` (`q` positive): starting at `e`, the first
exponent whose binade upper bound exceeds `q`. -/
def flExpGo (q : ℚ) : ℕ → ℤ → ℤ
  | 0, e => e
  | fuel + 1, e => if q < 2 ^ (e + 1) then e else flExpGo q fuel (e + 1)

/-- The binade exponent of a positive rational: the `e` with
`2 ^ e ≤ q < 2 ^ (e + 1)`, searched in `[-60, 60]` (ample for every value
this development rounds). -/
def flExp (q : ℚ) : ℤ := flExpGo q 120 (-60)

/-- Round a rational to the nearest IEEE binary64 value (normal range):
round-to-nearest-even at 53 significant bits. -/
def fl (q : ℚ) : ℚ :=
  if q = 0 then 0
  else (if q < 0 then -1 else 1) *
    (rne (|q| * 2 ^ (52 - flExp |q|)) : ℚ) * 2 ^ (flExp |q| - 52)

/-- `NumberProbability` (probabilityScoring.ts). -/
structure NumberProbability where
  number : ℤ
  frequencyScore : ℤ
  hotColdScore : ℤ
  patternScore : ℤ
  overdueScore : ℤ
  totalScore : ℤ
  winChance : ℚ
deriving DecidableEq, Repr

/-- `calculateNumberProbability` (probabilityScoring.ts).  `winChance` is
`(totalScore / 100) * 100` computed in doubles, so the two double roundings
are applied explicitly. -/
def calculateNumberProbability (number : ℤ) (draws : List Draw) (type : PoolType) :
    NumberProbability :=
  let frequencyScore := calculateFrequencyScore number draws type
  let hotColdScore := calculateHotColdScore number draws type
  let patternScore := calculatePatternScore number type
  let overdueScore := calculateOverdueScore number draws type
  let totalScore := frequencyScore + hotColdScore + patternScore + overdueScore
  let winChance := fl (fl ((totalScore : ℚ) / 100) * 100)
  { number := number
    frequencyScore := frequencyScore
    hotColdScore := hotColdScore
    patternScore := patternScore
    overdueScore := overdueScore
    totalScore := totalScore
    winChance := winChance }

/-! ## Hot/cold analysis (hotColdAnalysis.ts) -/

/-- Streak classification of a number. -/
inductive StreakType where
  | hot
  | cold
  | neutral
deriving DecidableEq, Repr

/-- Trend classification of a number. -/
inductive Trend where
  | rising
  | falling
  | stable
deriving DecidableEq, Repr

/-- `HotColdNumber` (hotColdAnalysis.ts). -/
structure HotColdNumber where
  number : ℤ
  appearances : ℕ
  streakType : StreakType
  streak : ℕ
  trend : Trend
deriving DecidableEq, Repr

/-- The recent-count threshold for `hot`: `type === "numbers" ? 3 : 4`. -/
def hotThreshold : PoolType → ℕ
  | .numbers => 3
  | .stars => 4

/-- Loop body of `analyzeTemperature` for one number `num`: the source keeps
`lastSeen` as `-1` when the number never appears, and tests that very value
against `7` for the `cold` branch. -/
def tempEntry (num : ℤ) (draws : List Draw) (type : PoolType) : HotColdNumber :=
  let recentCount := countAppearances num (draws.take 10) type
  let midCount := countAppearances num (draws.take 20) type
  let lastSeen : ℤ := match lastSeenIdx num draws type with | none => -1 | some i => (i : ℤ)
  let streakType : StreakType :=
    if hotThreshold type ≤ recentCount then .hot
    else if 7 < lastSeen then .cold
    else .neutral
  let recentRate : ℚ := (recentCount : ℚ) / 10
  let midRate : ℚ := (midCount : ℚ) / 20
  let trend : Trend :=
    if midRate + 0.1 < recentRate then .rising
    else if recentRate < midRate - 0.1 then .falling
    else .stable
  { number := num
    appearances := recentCount
    streakType := streakType
    streak := if lastSeen = -1 then draws.length else lastSeen.toNat
    trend := trend }

/-- `analyzeTemperature` (hotColdAnalysis.ts): classify `1..maxNumber` and
sort by recent appearances, descending.  (`allNumbers` is a parameter of the
source that its body never reads.) -/
def analyzeTemperature (allNumbers : List ℤ) (draws : List Draw) (type : PoolType)
    (maxNumber : ℕ) : List HotColdNumber :=
  ((List.range maxNumber).map (fun k : ℕ => tempEntry ((k : ℤ) + 1) draws type)).insertionSort
    (fun a b => b.appearances ≤ a.appearances)

/-! ## Draw checker (drawChecker.ts) -/

/-- `Bet` (drawChecker.ts). -/
structure Bet where
  id : String
  numbers : List ℤ
  stars : List ℤ
deriving DecidableEq, Repr

/-- `MatchResult` (drawChecker.ts). -/
structure MatchResult where
  betId : String
  numbers : List ℤ
  stars : List ℤ
  matchedNumbers : List ℤ
  matchedStars : List ℤ
  numberMatchCount : ℕ
  starMatchCount : ℕ
  matchCode : String
  isWinner : Bool
  prize : String
deriving DecidableEq, Repr

/-- `PRIZE_TIERS` (drawChecker.ts): the fixed prize table, verbatim. -/
def PRIZE_TIERS : List (String × String) :=
  [("5+2", "🏆 JACKPOT!"),
   ("5+1", "€300,000+"),
   ("5+0", "€50,000+"),
   ("4+2", "€3,000+"),
   ("4+1", "€150+"),
   ("4+0", "€50+"),
   ("3+2", "€30+"),
   ("3+1", "€12+"),
   ("2+2", "€8+"),
   ("3+0", "€10+"),
   ("1+2", "€7+"),
   ("2+1", "€5+")]

/-- `checkBet` (drawChecker.ts).  `PRIZE_TIERS[matchCode] || "No prize"` is
modelled by `lookup` with default (all table entries are non-empty strings,
so the JavaScript falsiness test means exactly key-absence). -/
def checkBet (bet : Bet) (draw : Draw) : MatchResult :=
  let matchedNumbers := bet.numbers.filter (fun n => decide (n ∈ draw.numbers))
  let matchedStars := bet.stars.filter (fun s => decide (s ∈ draw.stars))
  let numberMatchCount := matchedNumbers.length
  let starMatchCount := matchedStars.length
  let matchCode := toString numberMatchCount ++ "+" ++ toString starMatchCount
  let prize := (PRIZE_TIERS.lookup matchCode).getD "No prize"
  { betId := bet.id
    numbers := bet.numbers
    stars := bet.stars
    matchedNumbers := matchedNumbers
    matchedStars := matchedStars
    numberMatchCount := numberMatchCount
    starMatchCount := starMatchCount
    matchCode := matchCode
    isWinner := prize != "No prize"
    prize := prize }

/-- `checkAllBets` (drawChecker.ts). -/
def checkAllBets (bets : List Bet) (draw : Draw) : List MatchResult :=
  bets.map (fun bet => checkBet bet draw)

/-- The closeness key of `findClosestBet`: `numberMatchCount * 10 + starMatchCount`. -/
def closeness (r : MatchResult) : ℕ := r.numberMatchCount * 10 + r.starMatchCount

/-- `findClosestBet` (drawChecker.ts): `null` on an empty bet list, else the
first element after the stable sort by closeness, descending. -/
def findClosestBet (bets : List Bet) (draw : Draw) : Option MatchResult :=
  if bets.length = 0 then none
  else ((checkAllBets bets draw).insertionSort (fun a b => closeness b ≤ closeness a)).head?

/-! ## Frequency model (the repository's frequency module) -/

/-- `FrequencyData` of the frequency model. -/
structure FrequencyData where
  number : ℤ
  count : ℕ
  percentage : ℚ
  lastSeen : ℕ
deriving DecidableEq, Repr

/-- One entry of `calculateNumberFrequency`: the source initialises a `Map`
keyed by `1..50` and, scanning the draws, increments `count` per occurrence
and records the first (most recent) index; the map's entries are independent
per key, so the embedding computes each key's data directly.  (For a number
outside `1..50` the source's `frequency.get(num)!` would throw; the claims
concern histories respecting the documented 1..50 range invariant.) -/
def freqEntry (draws : List Draw) (number : ℤ) : FrequencyData :=
  let total := draws.length
  let count : ℕ := (draws.map (fun d => d.numbers.count number)).sum
  let lastIndex : Option ℕ := draws.findIdx? (fun d => decide (number ∈ d.numbers))
  { number := number
    count := count
    percentage := if 0 < total then ((count : ℚ) / (total : ℚ)) * 100 else 0
    lastSeen := lastIndex.getD total }

/-- The full frequency table: one `freqEntry` per number `1..50`, sorted by
count descending. -/
def calculateNumberFrequency (draws : List Draw) : List FrequencyData :=
  ((List.range 50).map (fun k : ℕ => freqEntry draws ((k : ℤ) + 1))).insertionSort
    (fun a b => b.count ≤ a.count)

/-! ## Combination scoring (probabilityScoring.ts) -/

/-- The `breakdown` field of `CombinationScore`. -/
structure ScoreBreakdown where
  frequencyScore : Option ℚ
  hotColdScore : Option ℚ
  patternScore : Option ℚ
  overdueScore : Option ℚ
deriving DecidableEq, Repr

/-- `CombinationScore` (probabilityScoring.ts).  Score fields are `Option ℚ`:
`none` models the `NaN` produced by the unguarded `0 / 0` when both input
arrays are empty; `winChance` is kept as the numeric value that the source
formats with `toFixed(2)` and a `%` suffix. -/
structure CombinationScore where
  numbers : List ℤ
  stars : List ℤ
  probabilityScore : Option ℚ
  winChance : Option ℚ
  breakdown : ScoreBreakdown
deriving DecidableEq, Repr

/-- JavaScript `Math.round`: round half toward positive infinity. -/
def jsRound (q : ℚ) : ℤ := ⌊q + 1 / 2⌋

/-- JavaScript division of the sum `a` of finitely many scores by a length
`b`: when `b = 0` the dividend is the empty sum `0` and `0 / 0` is `NaN`
(`none`); otherwise the exact quotient. -/
def jsDiv0 (a : ℚ) (b : ℕ) : Option ℚ := if b = 0 then none else some (a / b)

/-- One accumulator of `scoreCombination`: the source adds the selected
sub-score of every number's and every star's `NumberProbability` into a
running total inside its two `forEach` loops; the loops touch the four
totals independently, so each total is the sum below. -/
def sumScores (f : NumberProbability → ℤ) (numbers stars : List ℤ) (draws : List Draw) : ℤ :=
  ((numbers.map (fun num => calculateNumberProbability num draws .numbers)).map f).sum +
    ((stars.map (fun star => calculateNumberProbability star draws .stars)).map f).sum

/-- `scoreCombination` (probabilityScoring.ts). -/
def scoreCombination (numbers stars : List ℤ) (draws : List Draw) : CombinationScore :=
  let totalFrequency : ℤ := sumScores (·.frequencyScore) numbers stars draws
  let totalHotCold : ℤ := sumScores (·.hotColdScore) numbers stars draws
  let totalPattern : ℤ := sumScores (·.patternScore) numbers stars draws
  let totalOverdue : ℤ := sumScores (·.overdueScore) numbers stars draws
  let count := numbers.length + stars.length
  let avgFrequency := jsDiv0 (totalFrequency : ℚ) count
  let avgHotCold := jsDiv0 (totalHotCold : ℚ) count
  let avgPattern := jsDiv0 (totalPattern : ℚ) count
  let avgOverdue := jsDiv0 (totalOverdue : ℚ) count
  let evenCount := (numbers.filter (fun n => decide (n % 2 = 0))).length
  let lowCount := (numbers.filter (fun n => decide (n ≤ 25))).length
  let balanceBonus : ℤ :=
    (if 2 ≤ evenCount ∧ evenCount ≤ 3 then 3 else 0) +
    (if 2 ≤ lowCount ∧ lowCount ≤ 3 then 3 else 0)
  let probabilityScore : Option ℚ :=
    match avgFrequency, avgHotCold, avgPattern, avgOverdue with
    | some f, some h, some p, some o => some (min 100 (f + h + p + o + (balanceBonus : ℚ)))
    | _, _, _, _ => none
  { numbers := numbers
    stars := stars
    probabilityScore := probabilityScore.map (fun q => (jsRound (q * 10) : ℚ) / 10)
    winChance := probabilityScore.map (fun q => q / 100 * 15)
    breakdown :=
      { frequencyScore := avgFrequency.map (fun q => (jsRound (q * 10) : ℚ) / 10)
        hotColdScore := avgHotCold.map (fun q => (jsRound (q * 10) : ℚ) / 10)
        patternScore := avgPattern.map (fun q => (jsRound ((q + (balanceBonus : ℚ)) * 10) : ℚ) / 10)
        overdueScore := avgOverdue.map (fun q => (jsRound (q * 10) : ℚ) / 10) } }

/-! ## Smart combination generator (smartCombinationGenerator.ts) -/

/-- `getAllNumberProbabilities` (probabilityScoring.ts): score every number
of the pool and sort by `totalScore` descending (stable). -/
def getAllNumberProbabilities (draws : List Draw) (type : PoolType) : List NumberProbability :=
  let maxNumber : ℕ := match type with | .numbers => 50 | .stars => 12
  ((List.range maxNumber).map
    (fun k : ℕ => calculateNumberProbability ((k : ℤ) + 1) draws type)).insertionSort
    (fun a b => b.totalScore ≤ a.totalScore)

/-- `GeneratedCombination` (smartCombinationGenerator.ts); `confidence` is
kept as the numeric value formatted by `toFixed(2)` in the source. -/
structure GeneratedCombination extends CombinationScore where
  rank : ℕ
  confidence : Option ℚ
deriving DecidableEq, Repr

/-- `calculateConfidence` (smartCombinationGenerator.ts): scale the score by
a rank-degraded factor, never below `0.5`. -/
def calculateConfidence (probabilityScore : Option ℚ) (rank : ℕ) : Option ℚ :=
  probabilityScore.map (fun q => q / 100 * max 0.5 (1 - (rank : ℚ) * 0.05))

/-- Greedy walk of `selectBestNumbers`: admit candidates in order, stopping
at 5, skipping a candidate adjacent (±1) to an admitted number once 3 or
more are selected. -/
def selectBestLoop : List NumberProbability → List ℤ → List ℤ
  | [], selected => selected
  | c :: rest, selected =>
    if 5 ≤ selected.length then selected
    else if 3 ≤ selected.length ∧ selected.any (fun n => (n - c.number).natAbs == 1) then
      selectBestLoop rest selected
    else selectBestLoop rest (selected ++ [c.number])

/-- The `while (selected.length < target)` refill loops of the selection
strategies: append the first candidate not yet selected, stop when full or
when no candidate remains.  The loop body adds exactly one element or
stops, so `target` steps of fuel reproduce the source's unbounded loop. -/
def fillFrom (cands : List ℤ) (target : ℕ) : ℕ → List ℤ → List ℤ
  | 0, selected => selected
  | fuel + 1, selected =>
    if selected.length < target then
      match cands.filter (fun c => !selected.contains c) with
      | [] => selected
      | r :: _ => fillFrom cands target fuel (selected ++ [r])
    else selected

/-- `selectBestNumbers` (smartCombinationGenerator.ts). -/
def selectBestNumbers (numberProbs : List NumberProbability) (draws : List Draw) : List ℤ :=
  let topCandidates := numberProbs.take 15
  let selected := selectBestLoop topCandidates []
  (fillFrom (topCandidates.map (·.number)) 5 5 selected).insertionSort (fun a b => a ≤ b)

/-- `selectBestStars` (smartCombinationGenerator.ts). -/
def selectBestStars (starProbs : List NumberProbability) (draws : List Draw) : List ℤ :=
  ((starProbs.take 2).map (·.number)).insertionSort (fun a b => a ≤ b)

/-- `selectBalancedNumbers` (smartCombinationGenerator.ts): up to 3 of the
top-10 by hot/cold score, then top-10 by overdue score while under 5, then
refill from the full score-ranked list. -/
def selectBalancedNumbers (numberProbs : List NumberProbability) (draws : List Draw) : List ℤ :=
  let hotNumbers := (numberProbs.insertionSort (fun a b => b.hotColdScore ≤ a.hotColdScore)).take 10
  let overdueNumbers :=
    (numberProbs.insertionSort (fun a b => b.overdueScore ≤ a.overdueScore)).take 10
  let sel1 := (hotNumbers.take 3).foldl
    (fun sel c => if sel.contains c.number then sel else sel ++ [c.number]) []
  let sel2 := overdueNumbers.foldl
    (fun sel c =>
      if sel.length < 5 ∧ ¬ sel.contains c.number then sel ++ [c.number] else sel) sel1
  (fillFrom (numberProbs.map (·.number)) 5 5 sel2).insertionSort (fun a b => a ≤ b)

/-- `selectBalancedStars` (smartCombinationGenerator.ts): one top
hot/cold-score star, one top overdue-score star not yet chosen, refilled
from the full list while short. -/
def selectBalancedStars (starProbs : List NumberProbability) (draws : List Draw) : List ℤ :=
  let hotStars := starProbs.insertionSort (fun a b => b.hotColdScore ≤ a.hotColdScore)
  let overdueStars := starProbs.insertionSort (fun a b => b.overdueScore ≤ a.overdueScore)
  let sel1 : List ℤ := match hotStars with | [] => [] | h :: _ => [h.number]
  let sel2 : List ℤ :=
    match overdueStars.find? (fun s => !sel1.contains s.number) with
    | some s => sel1 ++ [s.number]
    | none => sel1
  (fillFrom (starProbs.map (·.number)) 2 2 sel2).insertionSort (fun a b => a ≤ b)

/-- Running tally of `selectPatternNumbers`. -/
structure PatternTally where
  sel : List ℤ
  evenCount : ℕ
  oddCount : ℕ
  lowCount : ℕ
  highCount : ℕ

/-- Loop body of `selectPatternNumbers`: admit the candidate while the
even/odd and low/high tallies stay at most 3 each and fewer than 5 numbers
are selected. -/
def patternStep (t : PatternTally) (c : NumberProbability) : PatternTally :=
  if 5 ≤ t.sel.length then t
  else
    let isEven := c.number % 2 = 0
    let isLow := c.number ≤ 25
    if isEven ∧ 3 ≤ t.evenCount then t
    else if ¬ isEven ∧ 3 ≤ t.oddCount then t
    else if isLow ∧ 3 ≤ t.lowCount then t
    else if ¬ isLow ∧ 3 ≤ t.highCount then t
    else
      { sel := t.sel ++ [c.number]
        evenCount := if isEven then t.evenCount + 1 else t.evenCount
        oddCount := if ¬ isEven then t.oddCount + 1 else t.oddCount
        lowCount := if isLow then t.lowCount + 1 else t.lowCount
        highCount := if ¬ isLow then t.highCount + 1 else t.highCount }

/-- `selectPatternNumbers` (smartCombinationGenerator.ts): walk the top 20,
keeping at most 3 even, 3 odd, 3 low (≤25) and 3 high picks, refilled from
the same pool while under 5. -/
def selectPatternNumbers (numberProbs : List NumberProbability) (draws : List Draw) : List ℤ :=
  let topCandidates := numberProbs.take 20
  let t := topCandidates.foldl patternStep (⟨[], 0, 0, 0, 0⟩ : PatternTally)
  (fillFrom (topCandidates.map (·.number)) 5 5 t.sel).insertionSort (fun a b => a ≤ b)

/-- Inner loop of the weighted-random selection: walk the candidates,
skipping already-selected ones while accumulating their weights, and pick
the first whose cumulative weight reaches `randomValue`. -/
def pickOne (selected : List ℤ) (randomValue : ℚ) :
    List NumberProbability → ℚ → Option ℤ
  | [], _ => none
  | c :: rest, cumulative =>
    if selected.contains c.number then pickOne selected randomValue rest cumulative
    else if randomValue ≤ cumulative + (c.totalScore : ℚ) then some c.number
    else pickOne selected randomValue rest (cumulative + (c.totalScore : ℚ))

/-- The fallback of a weighted-random round: the source's
`if (selected.length === i)` check appending the first unselected candidate. -/
def wrFallback (cands : List NumberProbability) (i : ℕ) (afterInner : List ℤ) : List ℤ :=
  if afterInner.length = i then
    match cands.find? (fun c => !afterInner.contains c.number) with
    | some c => afterInner ++ [c.number]
    | none => afterInner
  else afterInner

/-- One round `i` of the weighted-random loops: the inner pick, then the
fallback. -/
def wrRound (cands : List NumberProbability) (i : ℕ) (selected : List ℤ)
    (randomValue : ℚ) : List ℤ :=
  wrFallback cands i
    (match pickOne selected randomValue cands 0 with
      | some n => selected ++ [n]
      | none => selected)

/-- `selectWeightedRandomNumbers` (smartCombinationGenerator.ts), with the
sine-based seeded source abstracted as `rnd` (see the header). -/
def selectWeightedRandomNumbers (numberProbs : List NumberProbability)
    (rnd : ℕ → ℚ) : List ℤ :=
  let topCandidates := numberProbs.take 25
  let totalWeight : ℤ := (topCandidates.map (·.totalScore)).sum
  let sel := (List.range 5).foldl
    (fun sel i => wrRound topCandidates i sel (rnd i * (totalWeight : ℚ))) []
  sel.insertionSort (fun a b => a ≤ b)

/-- `selectWeightedRandomStars` (smartCombinationGenerator.ts). -/
def selectWeightedRandomStars (starProbs : List NumberProbability)
    (rnd : ℕ → ℚ) : List ℤ :=
  let topCandidates := starProbs.take 6
  let totalWeight : ℤ := (topCandidates.map (·.totalScore)).sum
  let sel := (List.range 2).foldl
    (fun sel i => wrRound topCandidates i sel (rnd i * (totalWeight : ℚ))) []
  sel.insertionSort (fun a b => a ≤ b)

/-- The `.map((combo, index) => ({ ...combo, rank: index + 1 }))` rank
reassignment, `index` starting at `i`. -/
def withRanks : ℕ → List GeneratedCombination → List GeneratedCombination
  | _, [] => []
  | i, c :: rest => { c with rank := i + 1 } :: withRanks (i + 1) rest

/-- `generateTopCombinations` (smartCombinationGenerator.ts).  `rndN i` and
`rndS i` stand for the sine-based sources seeded with slot index `i` (the
source's `random` closures for numbers and stars). -/
def generateTopCombinations (draws : List Draw) (count : ℤ)
    (rndN rndS : ℕ → ℕ → ℚ) : List GeneratedCombination :=
  let numCount : ℤ := min 10 (max 1 count)
  let numberProbs := getAllNumberProbabilities draws .numbers
  let starProbs := getAllNumberProbabilities draws .stars
  let combos := (List.range numCount.toNat).map (fun i =>
    let numbers :=
      if i = 0 then selectBestNumbers numberProbs draws
      else if i = 1 then selectBalancedNumbers numberProbs draws
      else if i = 2 then selectPatternNumbers numberProbs draws
      else selectWeightedRandomNumbers numberProbs (rndN i)
    let stars :=
      if i = 0 then selectBestStars starProbs draws
      else if i = 1 then selectBalancedStars starProbs draws
      else if i = 2 then selectBestStars starProbs draws
      else selectWeightedRandomStars starProbs (rndS i)
    let score := scoreCombination numbers stars draws
    { toCombinationScore := score
      rank := i + 1
      confidence := calculateConfidence score.probabilityScore i })
  withRanks 0 (combos.insertionSort
    (fun a b => b.probabilityScore.getD 0 ≤ a.probabilityScore.getD 0))

/-! ## Concrete inputs used by witnesses and counterexamples -/

/-- A draw whose numbers are `1..5`. -/
def drawA : Draw := ⟨"2024-01-05", [1, 2, 3, 4, 5], [1, 2]⟩

/-- A draw whose numbers are `2..6` (never contains 1). -/
def drawB : Draw := ⟨"2024-01-02", [2, 3, 4, 5, 6], [1, 2]⟩

/-- Eight draws none of which contains the number 1. -/
def draws8 : List Draw := List.replicate 8 drawB

/-- Ten draws; the number 1 appears exactly once, at index 9. -/
def draws9 : List Draw := List.replicate 9 drawB ++ [drawA]

/-- Twenty-five draws; the number 16 appears exactly once, at index 11, and
the number 7 never appears. -/
def draws25 : List Draw :=
  List.replicate 11 drawA ++ [⟨"2023-12-01", [16, 2, 3, 4, 5], [1, 2]⟩] ++
    List.replicate 13 drawA

/-- A bet matching `drawA` with code `4+0`. -/
def bet40 : Bet := ⟨"b40", [1, 2, 3, 4, 40], [10, 11]⟩

/-- A bet matching `drawA` with code `3+2`. -/
def bet32 : Bet := ⟨"b32", [1, 2, 3, 40, 41], [1, 2]⟩

/-! # Theorems: per-number scoring (C4, C10, C8, C2, C1) -/

lemma calculateFrequencyScore_bounds (number : ℤ) (draws : List Draw) (type : PoolType) :
    20 ≤ calculateFrequencyScore number draws type ∧
      calculateFrequencyScore number draws type ≤ 40 := by
  cases type <;> (simp only [calculateFrequencyScore]; split_ifs <;> omega)

lemma calculateHotColdScore_bounds (number : ℤ) (draws : List Draw) (type : PoolType) :
    15 ≤ calculateHotColdScore number draws type ∧
      calculateHotColdScore number draws type ≤ 30 := by
  simp only [calculateHotColdScore]; split_ifs <;> omega

lemma calculatePatternScore_stars (number : ℤ) :
    calculatePatternScore number .stars = 15 := rfl

lemma calculatePatternScore_numbers_bounds (number : ℤ) :
    7 ≤ calculatePatternScore number .numbers ∧
      calculatePatternScore number .numbers ≤ 18 := by
  simp only [calculatePatternScore]
  split_ifs <;> omega

lemma calculateOverdueScore_bounds (number : ℤ) (draws : List Draw) (type : PoolType) :
    2 ≤ calculateOverdueScore number draws type ∧
      calculateOverdueScore number draws type ≤ 10 := by
  rcases h : lastSeenIdx number draws type with _ | i <;>
    cases type <;>
      (simp only [calculateOverdueScore, h]; try split_ifs) <;> omega

lemma cnp_frequencyScore (number : ℤ) (draws : List Draw) (type : PoolType) :
    (calculateNumberProbability number draws type).frequencyScore =
      calculateFrequencyScore number draws type := rfl

lemma cnp_hotColdScore (number : ℤ) (draws : List Draw) (type : PoolType) :
    (calculateNumberProbability number draws type).hotColdScore =
      calculateHotColdScore number draws type := rfl

lemma cnp_patternScore (number : ℤ) (draws : List Draw) (type : PoolType) :
    (calculateNumberProbability number draws type).patternScore =
      calculatePatternScore number type := rfl

lemma cnp_overdueScore (number : ℤ) (draws : List Draw) (type : PoolType) :
    (calculateNumberProbability number draws type).overdueScore =
      calculateOverdueScore number draws type := rfl

lemma cnp_totalScore (number : ℤ) (draws : List Draw) (type : PoolType) :
    (calculateNumberProbability number draws type).totalScore =
      calculateFrequencyScore number draws type + calculateHotColdScore number draws type +
        calculatePatternScore number type + calculateOverdueScore number draws type := rfl

lemma cnp_winChance (number : ℤ) (draws : List Draw) (type : PoolType) :
    (calculateNumberProbability number draws type).winChance =
      fl (fl (((calculateNumberProbability number draws type).totalScore : ℚ) / 100) * 100) := rfl

/-- Claim C4 (corrected): for every number and draw history, frequencyScore lies in
[0,40], hotColdScore in [0,30], patternScore in [0,20], overdueScore in [0,10],
totalScore is exactly their sum (hence at most 100), and winChance is the IEEE
binary64 evaluation of (totalScore/100)*100. -/
theorem calculateNumberProbability_ranges (number : ℤ) (draws : List Draw) (type : PoolType) :
    0 ≤ (calculateNumberProbability number draws type).frequencyScore ∧
    (calculateNumberProbability number draws type).frequencyScore ≤ 40 ∧
    0 ≤ (calculateNumberProbability number draws type).hotColdScore ∧
    (calculateNumberProbability number draws type).hotColdScore ≤ 30 ∧
    0 ≤ (calculateNumberProbability number draws type).patternScore ∧
    (calculateNumberProbability number draws type).patternScore ≤ 20 ∧
    0 ≤ (calculateNumberProbability number draws type).overdueScore ∧
    (calculateNumberProbability number draws type).overdueScore ≤ 10 ∧
    (calculateNumberProbability number draws type).totalScore =
      (calculateNumberProbability number draws type).frequencyScore +
        (calculateNumberProbability number draws type).hotColdScore +
        (calculateNumberProbability number draws type).patternScore +
        (calculateNumberProbability number draws type).overdueScore ∧
    (calculateNumberProbability number draws type).totalScore ≤ 100 ∧
    (calculateNumberProbability number draws type).winChance =
      fl (fl (((calculateNumberProbability number draws type).totalScore : ℚ) / 100) * 100) := by
  obtain ⟨h1, h2⟩ := calculateFrequencyScore_bounds number draws type
  obtain ⟨h3, h4⟩ := calculateHotColdScore_bounds number draws type
  obtain ⟨h7, h8⟩ := calculateOverdueScore_bounds number draws type
  have h56 : 0 ≤ calculatePatternScore number type ∧ calculatePatternScore number type ≤ 20 := by
    cases type
    · obtain ⟨a, b⟩ := calculatePatternScore_numbers_bounds number; constructor <;> omega
    · rw [calculatePatternScore_stars]; constructor <;> omega
  obtain ⟨h5, h6⟩ := h56
  refine ⟨?_, ?_, ?_, ?_, ?_, ?_, ?_, ?_, ?_, ?_, ?_⟩ <;>
    simp only [cnp_winChance, cnp_frequencyScore, cnp_hotColdScore, cnp_patternScore,
      cnp_overdueScore, cnp_totalScore] <;> omega

/-- Claim C10: totalScore never attains 100 — the pattern sub-score is at most 18
for the numbers pool (10 base + 5 mid-range + 3 odd, under the 20 clamp) and
exactly 15 for stars, bounding totalScore by 98 resp. 95. -/
theorem totalScore_never_100 (number : ℤ) (draws : List Draw) :
    (calculateNumberProbability number draws .numbers).patternScore ≤ 18 ∧
    (calculateNumberProbability number draws .numbers).totalScore ≤ 98 ∧
    (calculateNumberProbability number draws .numbers).totalScore < 100 ∧
    (calculateNumberProbability number draws .stars).patternScore = 15 ∧
    (calculateNumberProbability number draws .stars).totalScore ≤ 95 ∧
    (calculateNumberProbability number draws .stars).totalScore < 100 := by
  obtain ⟨-, h2⟩ := calculateFrequencyScore_bounds number draws .numbers
  obtain ⟨-, h4⟩ := calculateHotColdScore_bounds number draws .numbers
  obtain ⟨-, h6⟩ := calculatePatternScore_numbers_bounds number
  obtain ⟨-, h8⟩ := calculateOverdueScore_bounds number draws .numbers
  obtain ⟨-, s2⟩ := calculateFrequencyScore_bounds number draws .stars
  obtain ⟨-, s4⟩ := calculateHotColdScore_bounds number draws .stars
  obtain ⟨-, s8⟩ := calculateOverdueScore_bounds number draws .stars
  refine ⟨?_, ?_, ?_, ?_, ?_, ?_⟩ <;>
    simp only [cnp_patternScore, cnp_totalScore, calculatePatternScore_stars] <;> omega

/-- Claim C1: the spec requires scoreCombination on empty numbers and stars to guard
the divide-by-zero and return a defined score 0; the code has no guard, so the four
totals are divided by count = 0 and the result is NaN (modeled as none), never
some 0 — the claim fails and the divergence is a code bug against the spec's
stated error-handling design. -/
theorem scoreCombination_empty_nan :
    ∀ draws : List Draw,
      (scoreCombination [] [] draws).probabilityScore = none ∧
      (scoreCombination [] [] draws).winChance = none ∧
      (scoreCombination [] [] draws).probabilityScore ≠ some 0 :=
  fun _ => ⟨rfl, rfl, fun h => nomatch h⟩

/-- Claim C8: for either pool and every draw history, including the empty one, the
overdue sub-score of a number appearing in no draw of the history is exactly 10. -/
theorem calculateOverdueScore_never_seen (number : ℤ) (draws : List Draw) (type : PoolType)
    (h : ∀ d ∈ draws, number ∉ d.pool type) :
    calculateOverdueScore number draws type = 10 := by
  have hnone : lastSeenIdx number draws type = none := by
    rw [lastSeenIdx, List.findIdx?_eq_none_iff]
    intro d hd
    simpa using h d hd
  simp only [calculateOverdueScore, hnone]

theorem calculateOverdueScore_never_seen_witness :
    calculateOverdueScore 7 draws25 PoolType.numbers = 10 :=
  calculateOverdueScore_never_seen 7 draws25 PoolType.numbers (by decide)

/-- Claim C2 (corrected): for a number below the hot threshold, the classification
is cold iff the number appears somewhere in the history and the raw index of its
most recent appearance exceeds 7; the sentinel lastSeen = -1 of a never-seen
number fails that test, so such a number is neutral even when the
draws-since-last-seen streak exceeds 7. -/
theorem streakType_cold_iff (num : ℤ) (draws : List Draw) (type : PoolType)
    (hnothot : countAppearances num (draws.take 10) type < hotThreshold type) :
    ((tempEntry num draws type).streakType = .cold ↔
      ∃ i, lastSeenIdx num draws type = some i ∧ 7 < i) := by
  rcases h : lastSeenIdx num draws type with _ | i <;>
    simp only [tempEntry, h, if_neg (not_le.mpr hnothot)]
  · rw [if_neg (by norm_num : ¬ (7 : ℤ) < -1)]
    constructor
    · intro hc
      exact nomatch hc
    · rintro ⟨i, hi, -⟩
      exact nomatch hi
  · constructor
    · intro hc
      refine ⟨i, rfl, ?_⟩
      by_contra hle
      rw [if_neg (by exact_mod_cast hle : ¬ (7 : ℤ) < (i : ℤ))] at hc
      exact nomatch hc
    · rintro ⟨j, hj, hj7⟩
      obtain rfl : i = j := by simpa using hj
      rw [if_pos (by exact_mod_cast hj7 : (7 : ℤ) < (i : ℤ))]

theorem streakType_cold_iff_witness :
    (tempEntry 1 draws9 PoolType.numbers).streakType = StreakType.cold :=
  (streakType_cold_iff 1 draws9 PoolType.numbers (by decide)).mpr ⟨9, by decide, by decide⟩

/-- Claim C2 counterexample: number 49 is absent from an 8-draw history, so its
streak is 8 > 7, yet analyzeTemperature classifies it neutral, not cold,
refuting the claim's 'absent from more than 7 draws means cold'. -/
theorem never_seen_neutral_not_cold :
    (tempEntry 1 draws8 PoolType.numbers).streak = 8 ∧ 7 < 8 ∧
    countAppearances 1 (draws8.take 10) PoolType.numbers < hotThreshold PoolType.numbers ∧
    (tempEntry 1 draws8 PoolType.numbers).streakType = StreakType.neutral ∧
    (tempEntry 1 draws8 PoolType.numbers).streakType ≠ StreakType.cold := by decide

/-! ## Evaluation of the double rounding at the C4 counterexample -/

lemma flExpGo_eq (q : ℚ) (e : ℤ) :
    ∀ (fuel : ℕ) (start : ℤ), start ≤ e → e < start + (fuel : ℤ) →
      (∀ e' : ℤ, start ≤ e' → e' < e → ¬ q < 2 ^ (e' + 1)) →
      q < 2 ^ (e + 1) → flExpGo q fuel start = e := by
  intro fuel
  induction fuel with
  | zero =>
    intro start h1 h2 _ _
    exact ((by push_cast at h2; omega : False)).elim
  | succ n ih =>
    intro start h1 h2 hmin hq
    rw [flExpGo]
    by_cases hs : q < 2 ^ (start + 1)
    · rw [if_pos hs]
      rcases eq_or_lt_of_le h1 with rfl | hlt
      · rfl
      · exact absurd hs (hmin start le_rfl hlt)
    · rw [if_neg hs]
      rcases eq_or_lt_of_le h1 with rfl | hlt
      · exact absurd hq hs
      · exact ih (start + 1) (by omega) (by push_cast at h2 ⊢; omega)
          (fun e' a b => hmin e' (by omega) b) hq

lemma flExp_eq (q : ℚ) (e : ℤ) (h0 : -60 ≤ e) (h1 : e < 60)
    (h2 : 2 ^ e ≤ q) (h3 : q < 2 ^ (e + 1)) : flExp q = e := by
  rw [flExp]
  refine flExpGo_eq q e 120 (-60) h0 (by omega) ?_ h3
  intro e' he'0 he'e
  rw [not_lt]
  calc (2 : ℚ) ^ (e' + 1) ≤ 2 ^ e := zpow_le_zpow_right₀ (by norm_num) (by omega)
    _ ≤ q := h2

lemma fl_pos_eq (q : ℚ) (e : ℤ) (hq : 0 < q) (h0 : -60 ≤ e) (h1 : e < 60)
    (h2 : 2 ^ e ≤ q) (h3 : q < 2 ^ (e + 1)) :
    fl q = (rne (q * 2 ^ (52 - e)) : ℚ) * 2 ^ (e - 52) := by
  rw [fl, if_neg hq.ne', if_neg (not_lt.mpr hq.le), abs_of_pos hq,
    flExp_eq q e h0 h1 h2 h3, one_mul]

lemma rne_eq_floor (x : ℚ) (n : ℤ) (h1 : (n : ℚ) ≤ x) (h2 : x < (n : ℚ) + 1 / 2) :
    rne x = n := by
  have hf : ⌊x⌋ = n := by
    rw [Int.floor_eq_iff]
    exact ⟨h1, by linarith⟩
  rw [rne, hf, if_pos (by linarith : x - (n : ℚ) < 1 / 2)]

lemma fl_at_57_100 : fl (57 / 100) = 5134103575202365 / 2 ^ 53 := by
  rw [fl_pos_eq (57 / 100) (-1) (by norm_num) (by norm_num) (by norm_num)
    (by norm_num) (by norm_num)]
  have he : (2 : ℚ) ^ ((52 : ℤ) - (-1)) = 2 ^ (53 : ℕ) := by norm_num
  rw [he, rne_eq_floor (57 / 100 * 2 ^ (53 : ℕ)) 5134103575202365 (by norm_num) (by norm_num)]
  norm_num

lemma fl_second_57 : fl (5134103575202365 / 2 ^ 53 * 100) = 8022036836253695 / 2 ^ 47 := by
  rw [fl_pos_eq (5134103575202365 / 2 ^ 53 * 100) 5 (by norm_num) (by norm_num) (by norm_num)
    (by norm_num) (by norm_num)]
  have he : (2 : ℚ) ^ ((52 : ℤ) - 5) = 2 ^ (47 : ℕ) := by norm_num
  rw [he, rne_eq_floor (5134103575202365 / 2 ^ 53 * 100 * 2 ^ (47 : ℕ)) 8022036836253695
    (by norm_num) (by norm_num)]
  norm_num

/-- Claim C4 counterexample: for number 16 against a 25-draw history the totalScore
is 57, but the binary64 round trip (57/100)*100 yields 8022036836253695/2^47,
strictly below 57, refuting 'winChance numerically identical to totalScore'. -/
theorem winChance_at_57_differs :
    (calculateNumberProbability 16 draws25 PoolType.numbers).totalScore = 57 ∧
    (calculateNumberProbability 16 draws25 PoolType.numbers).winChance ≠ 57 := by
  have hfreq : calculateFrequencyScore 16 draws25 .numbers = 20 := by
    have h1 : countAppearances 16 draws25 .numbers = 1 := by decide
    have h2 : draws25.length = 25 := by decide
    rw [calculateFrequencyScore, h1, h2]
    norm_num
  have hhot : calculateHotColdScore 16 draws25 .numbers = 15 := by
    have h1 : countAppearances 16 (draws25.take 10) .numbers = 0 := by decide
    have h2 : countAppearances 16 (draws25.take 20) .numbers = 1 := by decide
    have h3 : (draws25.take 20).length = 20 := by decide
    rw [calculateHotColdScore, h1, h2, h3]
    norm_num
  have hpat : calculatePatternScore 16 .numbers = 15 := by decide
  have hover : calculateOverdueScore 16 draws25 .numbers = 7 := by decide
  have htot : (calculateNumberProbability 16 draws25 PoolType.numbers).totalScore = 57 := by
    rw [cnp_totalScore, hfreq, hhot, hpat, hover]
    decide
  refine ⟨htot, ?_⟩
  rw [cnp_winChance, htot]
  have hc : ((57 : ℤ) : ℚ) = 57 := by norm_num
  rw [hc, fl_at_57_100, fl_second_57]
  norm_num

/-! # Theorems: combination scoring order-invariance (C3) -/

lemma scoreCombination_input_numbers (ns ss : List ℤ) (draws : List Draw) :
    (scoreCombination ns ss draws).numbers = ns := rfl

lemma scoreCombination_input_stars (ns ss : List ℤ) (draws : List Draw) :
    (scoreCombination ns ss draws).stars = ss := rfl

lemma sumScores_perm (f : NumberProbability → ℤ) (ns ns' ss ss' : List ℤ) (draws : List Draw)
    (hn : ns.Perm ns') (hs : ss.Perm ss') :
    sumScores f ns ss draws = sumScores f ns' ss' draws := by
  rw [sumScores, sumScores, ((hn.map _).map f).sum_eq, ((hs.map _).map f).sum_eq]

/-- Claim C3 (corrected): scoreCombination is order-insensitive in its aggregation —
permuting the input numbers and stars leaves probabilityScore, winChance and the
breakdown unchanged — but the returned numbers and stars fields are the inputs
exactly as supplied, not sorted internally. -/
theorem scoreCombination_perm_invariant (ns ns' ss ss' : List ℤ) (draws : List Draw)
    (hn : ns.Perm ns') (hs : ss.Perm ss') :
    (scoreCombination ns ss draws).numbers = ns ∧
    (scoreCombination ns ss draws).stars = ss ∧
    (scoreCombination ns ss draws).probabilityScore =
      (scoreCombination ns' ss' draws).probabilityScore ∧
    (scoreCombination ns ss draws).winChance = (scoreCombination ns' ss' draws).winChance ∧
    (scoreCombination ns ss draws).breakdown = (scoreCombination ns' ss' draws).breakdown := by
  have hf : ∀ f : NumberProbability → ℤ,
      sumScores f ns ss draws = sumScores f ns' ss' draws :=
    fun f => sumScores_perm f ns ns' ss ss' draws hn hs
  have hcount : ns.length + ss.length = ns'.length + ss'.length := by
    rw [hn.length_eq, hs.length_eq]
  have heven : (ns.filter (fun n => decide (n % 2 = 0))).length =
      (ns'.filter (fun n => decide (n % 2 = 0))).length := (hn.filter _).length_eq
  have hlow : (ns.filter (fun n => decide (n ≤ 25))).length =
      (ns'.filter (fun n => decide (n ≤ 25))).length := (hn.filter _).length_eq
  refine ⟨rfl, rfl, ?_, ?_, ?_⟩ <;>
    simp only [scoreCombination, hf, hcount, heven, hlow]

theorem scoreCombination_perm_invariant_witness :
    (scoreCombination [2, 1, 3, 4, 5] [2, 1] []).probabilityScore =
      (scoreCombination [1, 2, 3, 4, 5] [1, 2] []).probabilityScore :=
  (scoreCombination_perm_invariant [2, 1, 3, 4, 5] [1, 2, 3, 4, 5] [2, 1] [1, 2] []
    (List.Perm.swap (1 : ℤ) 2 [3, 4, 5]) (List.Perm.swap (1 : ℤ) 2 [])).2.2.1

/-- Claim C3 counterexample: scoring the permuted input [2,1,3,4,5]/[2,1] returns
those arrays untouched (unsorted, differing from the sorted-input record) while
the probabilityScore is the same, refuting 'sorted internally before scoring'. -/
theorem scoreCombination_returns_unsorted_cx :
    (scoreCombination [2, 1, 3, 4, 5] [1, 2] []).numbers = [2, 1, 3, 4, 5] ∧
    ¬ List.Sorted (fun a b => a ≤ b) (scoreCombination [2, 1, 3, 4, 5] [1, 2] []).numbers ∧
    scoreCombination [2, 1, 3, 4, 5] [1, 2] [] ≠ scoreCombination [1, 2, 3, 4, 5] [1, 2] [] := by
  refine ⟨rfl, ?_, ?_⟩
  · rw [scoreCombination_input_numbers]
    decide
  · intro h
    have h2 := congrArg CombinationScore.numbers h
    rw [scoreCombination_input_numbers, scoreCombination_input_numbers] at h2
    exact absurd h2 (by decide)

/-! # Theorems: bet checking (C6, C7) -/

lemma checkBet_matchedNumbers (bet : Bet) (draw : Draw) :
    (checkBet bet draw).matchedNumbers =
      bet.numbers.filter (fun n => decide (n ∈ draw.numbers)) := rfl

lemma checkBet_matchedStars (bet : Bet) (draw : Draw) :
    (checkBet bet draw).matchedStars =
      bet.stars.filter (fun s => decide (s ∈ draw.stars)) := rfl

lemma checkBet_numberMatchCount (bet : Bet) (draw : Draw) :
    (checkBet bet draw).numberMatchCount = (checkBet bet draw).matchedNumbers.length := rfl

lemma checkBet_starMatchCount (bet : Bet) (draw : Draw) :
    (checkBet bet draw).starMatchCount = (checkBet bet draw).matchedStars.length := rfl

lemma checkBet_matchCode (bet : Bet) (draw : Draw) :
    (checkBet bet draw).matchCode =
      toString (checkBet bet draw).numberMatchCount ++ "+" ++
        toString (checkBet bet draw).starMatchCount := rfl

lemma checkBet_prize (bet : Bet) (draw : Draw) :
    (checkBet bet draw).prize =
      (PRIZE_TIERS.lookup (checkBet bet draw).matchCode).getD "No prize" := rfl

lemma checkBet_isWinner (bet : Bet) (draw : Draw) :
    (checkBet bet draw).isWinner = ((checkBet bet draw).prize != "No prize") := rfl

/-- Claim C6: checkBet returns matchedNumbers and matchedStars as the intersection
of the bet's selections with the draw's, matchCode as the count-pair string,
the prize from the fixed twelve-entry table, and for any code outside the table
the default prize 'No prize' with isWinner = false — the lookup is total and
never throws. -/
theorem checkBet_spec (bet : Bet) (draw : Draw) :
    (∀ x : ℤ, x ∈ (checkBet bet draw).matchedNumbers ↔ x ∈ bet.numbers ∧ x ∈ draw.numbers) ∧
    (∀ x : ℤ, x ∈ (checkBet bet draw).matchedStars ↔ x ∈ bet.stars ∧ x ∈ draw.stars) ∧
    (checkBet bet draw).numberMatchCount = (checkBet bet draw).matchedNumbers.length ∧
    (checkBet bet draw).starMatchCount = (checkBet bet draw).matchedStars.length ∧
    (checkBet bet draw).matchCode =
      toString (checkBet bet draw).numberMatchCount ++ "+" ++
        toString (checkBet bet draw).starMatchCount ∧
    PRIZE_TIERS.length = 12 ∧
    (checkBet bet draw).prize =
      (PRIZE_TIERS.lookup (checkBet bet draw).matchCode).getD "No prize" ∧
    (PRIZE_TIERS.lookup (checkBet bet draw).matchCode = none →
      (checkBet bet draw).prize = "No prize" ∧ (checkBet bet draw).isWinner = false) := by
  refine ⟨?_, ?_, rfl, rfl, rfl, rfl, rfl, ?_⟩
  · intro x
    rw [checkBet_matchedNumbers]
    simp [List.mem_filter]
  · intro x
    rw [checkBet_matchedStars]
    simp [List.mem_filter]
  · intro hl
    have hp : (checkBet bet draw).prize = "No prize" := by
      rw [checkBet_prize, hl]
      rfl
    refine ⟨hp, ?_⟩
    rw [checkBet_isWinner, hp]
    decide

/-- Claim C7: findClosestBet returns none exactly when the bets list is empty, and
otherwise a checkAllBets result whose closeness numberMatchCount*10 +
starMatchCount is maximal over all supplied bets; in particular a 4+0 bet
(closeness 40) ranks above a 3+2 bet (closeness 32). -/
theorem findClosestBet_spec (bets : List Bet) (draw : Draw) :
    (findClosestBet bets draw = none ↔ bets = []) ∧
    ∀ r, findClosestBet bets draw = some r →
      r ∈ checkAllBets bets draw ∧
      ∀ s ∈ checkAllBets bets draw, closeness s ≤ closeness r := by
  haveI : IsTotal MatchResult (fun a b => closeness b ≤ closeness a) :=
    ⟨fun a b => le_total (closeness b) (closeness a)⟩
  haveI : IsTrans MatchResult (fun a b => closeness b ≤ closeness a) :=
    ⟨fun _ _ _ h1 h2 => le_trans h2 h1⟩
  rcases bets with _ | ⟨b, bs⟩
  · refine ⟨by simp [findClosestBet], ?_⟩
    intro r hr
    rw [findClosestBet] at hr
    simp at hr
  · have hperm := List.perm_insertionSort
      (fun a b => closeness b ≤ closeness a) (checkAllBets (b :: bs) draw)
    have hsorted := List.sorted_insertionSort
      (fun a b => closeness b ≤ closeness a) (checkAllBets (b :: bs) draw)
    rcases hres : (checkAllBets (b :: bs) draw).insertionSort
        (fun a b => closeness b ≤ closeness a) with _ | ⟨x, rest⟩
    · exfalso
      have hl := hperm.length_eq
      rw [hres] at hl
      simp [checkAllBets] at hl
    · have hfind : findClosestBet (b :: bs) draw = some x := by
        rw [findClosestBet, if_neg (by simp), hres]
        rfl
      refine ⟨?_, ?_⟩
      · rw [hfind]
        constructor
        · intro h
          exact nomatch h
        · intro h
          exact nomatch h
      · intro r hr
        rw [hfind] at hr
        obtain rfl : x = r := by injection hr
        rw [hres] at hperm hsorted
        refine ⟨hperm.subset (List.mem_cons_self x rest), ?_⟩
        intro s hs
        rcases List.mem_cons.mp (hperm.mem_iff.mpr hs) with rfl | hmem
        · exact le_refl _
        · exact (List.sorted_cons.mp hsorted).1 s hmem

/-! # Theorems: frequency table (C9) -/

lemma freqEntry_number (draws : List Draw) (m : ℤ) : (freqEntry draws m).number = m := rfl

lemma freqEntry_percentage (draws : List Draw) (m : ℤ) :
    (freqEntry draws m).percentage =
      if 0 < draws.length then (((freqEntry draws m).count : ℚ) / (draws.length : ℚ)) * 100
      else 0 := rfl

lemma freqEntry_lastSeen (draws : List Draw) (m : ℤ) :
    (freqEntry draws m).lastSeen =
      (draws.findIdx? (fun d => decide (m ∈ d.numbers))).getD draws.length := rfl

lemma freqEntry_lastSeen_facts (draws : List Draw) (m : ℤ) :
    ((freqEntry draws m).lastSeen = draws.length ↔ ∀ d ∈ draws, m ∉ d.numbers) ∧
    ((freqEntry draws m).lastSeen < draws.length →
      m ∈ (draws.getD (freqEntry draws m).lastSeen drawB).numbers ∧
      ∀ j < (freqEntry draws m).lastSeen, m ∉ (draws.getD j drawB).numbers) ∧
    (freqEntry draws m).lastSeen ≤ draws.length := by
  rw [freqEntry_lastSeen]
  rcases hfi : draws.findIdx? (fun d => decide (m ∈ d.numbers)) with _ | i <;> rw [hfi]
  · rw [List.findIdx?_eq_none_iff] at hfi
    simp only [Option.getD_none]
    exact ⟨⟨fun _ d hd => by simpa using hfi d hd, fun _ => trivial⟩,
      fun h => absurd h (lt_irrefl _), le_refl _⟩
  · rw [List.findIdx?_eq_some_iff_getElem] at hfi
    obtain ⟨hlt, hp, hprev⟩ := hfi
    simp only [Option.getD_some]
    refine ⟨⟨fun hi => (by omega : False).elim, fun hnever => ?_⟩, fun _ => ⟨?_, ?_⟩,
      le_of_lt hlt⟩
    · exact absurd (by simpa using hp) (hnever _ (List.getElem_mem hlt))
    · simp only [List.getD_eq_getElem?_getD, List.getElem?_eq_getElem hlt, Option.getD_some]
      simpa using hp
    · intro j hj
      have hjlt : j < draws.length := lt_trans hj hlt
      simp only [List.getD_eq_getElem?_getD, List.getElem?_eq_getElem hjlt, Option.getD_some]
      simpa using hprev j hj

/-- Claim C9: the frequency table has one entry per number of the pool's full 1..50
range (zero-count numbers included), sorted by count descending; percentage is
count/|history|*100 with 0 for the empty history, and lastSeen is the index of
the first occurrence scanning from the most recent draw, or the sentinel
|history| when the number was never seen. -/
theorem calculateNumberFrequency_spec (draws : List Draw)
    (hrange : ∀ d ∈ draws, ∀ n ∈ d.numbers, 1 ≤ n ∧ n ≤ 50) :
    ((calculateNumberFrequency draws).map (fun e => e.number)).Perm
      ((List.range 50).map (fun k : ℕ => (k : ℤ) + 1)) ∧
    (calculateNumberFrequency draws).length = 50 ∧
    List.Sorted (fun a b : FrequencyData => b.count ≤ a.count) (calculateNumberFrequency draws) ∧
    ∀ e ∈ calculateNumberFrequency draws,
      (e.percentage =
        if 0 < draws.length then ((e.count : ℚ) / (draws.length : ℚ)) * 100 else 0) ∧
      (e.lastSeen = draws.length ↔ ∀ d ∈ draws, e.number ∉ d.numbers) ∧
      (e.lastSeen < draws.length →
        e.number ∈ (draws.getD e.lastSeen drawB).numbers ∧
        ∀ j < e.lastSeen, e.number ∉ (draws.getD j drawB).numbers) ∧
      e.lastSeen ≤ draws.length := by
  haveI : IsTotal FrequencyData (fun a b => b.count ≤ a.count) :=
    ⟨fun a b => le_total _ _⟩
  haveI : IsTrans FrequencyData (fun a b => b.count ≤ a.count) :=
    ⟨fun _ _ _ h1 h2 => le_trans h2 h1⟩
  have hperm := List.perm_insertionSort (fun a b : FrequencyData => b.count ≤ a.count)
    ((List.range 50).map (fun k : ℕ => freqEntry draws ((k : ℤ) + 1)))
  refine ⟨?_, ?_, ?_, ?_⟩
  · have h1 := hperm.map (fun e : FrequencyData => e.number)
    rw [List.map_map] at h1
    exact h1
  · rw [calculateNumberFrequency, List.length_insertionSort, List.length_map, List.length_range]
  · exact List.sorted_insertionSort _ _
  · intro e he
    have hbase : e ∈ (List.range 50).map (fun k : ℕ => freqEntry draws ((k : ℤ) + 1)) :=
      hperm.subset he
    obtain ⟨k, hk, rfl⟩ := List.mem_map.mp hbase
    obtain ⟨hiff, hfound, hle⟩ := freqEntry_lastSeen_facts draws ((k : ℤ) + 1)
    exact ⟨freqEntry_percentage draws _, hiff, hfound, hle⟩

theorem calculateNumberFrequency_spec_witness :
    (calculateNumberFrequency draws25).length = 50 :=
  (calculateNumberFrequency_spec draws25 (by decide)).2.1

/-! # Block 6: generator (C5), stage A -/

lemma cnp_number (number : ℤ) (draws : List Draw) (type : PoolType) :
    (calculateNumberProbability number draws type).number = number := rfl

lemma gap_facts (draws : List Draw) (type : PoolType) :
    (getAllNumberProbabilities draws type).length = poolMax type ∧
    ((getAllNumberProbabilities draws type).map (fun p => p.number)).Nodup ∧
    ∀ p ∈ getAllNumberProbabilities draws type, 1 ≤ p.number ∧ p.number ≤ poolMax type := by
  have main : ∀ maxN : ℕ,
      ((((List.range maxN).map
          (fun k : ℕ => calculateNumberProbability ((k : ℤ) + 1) draws type)).insertionSort
          (fun a b => b.totalScore ≤ a.totalScore)).length = maxN) ∧
      (((((List.range maxN).map
          (fun k : ℕ => calculateNumberProbability ((k : ℤ) + 1) draws type)).insertionSort
          (fun a b => b.totalScore ≤ a.totalScore)).map (fun p => p.number)).Nodup) ∧
      ∀ p ∈ (((List.range maxN).map
          (fun k : ℕ => calculateNumberProbability ((k : ℤ) + 1) draws type)).insertionSort
          (fun a b => b.totalScore ≤ a.totalScore)), 1 ≤ p.number ∧ p.number ≤ maxN := by
    intro maxN
    haveI : IsTotal NumberProbability (fun a b => b.totalScore ≤ a.totalScore) :=
      ⟨fun a b => le_total _ _⟩
    haveI : IsTrans NumberProbability (fun a b => b.totalScore ≤ a.totalScore) :=
      ⟨fun _ _ _ h1 h2 => le_trans h2 h1⟩
    have hperm := List.perm_insertionSort
      (fun a b : NumberProbability => b.totalScore ≤ a.totalScore)
      ((List.range maxN).map (fun k : ℕ => calculateNumberProbability ((k : ℤ) + 1) draws type))
    refine ⟨?_, ?_, ?_⟩
    · rw [List.length_insertionSort, List.length_map, List.length_range]
    · rw [(hperm.map (fun p : NumberProbability => p.number)).nodup_iff, List.map_map]
      exact List.Nodup.map
        (fun a b hab => by
          have hab2 : (a : ℤ) + 1 = (b : ℤ) + 1 := hab
          omega)
        (List.nodup_range maxN)
    · intro p hp
      obtain ⟨k, hk, rfl⟩ := List.mem_map.mp (hperm.subset hp)
      rw [cnp_number]
      have := List.mem_range.mp hk
      omega
  obtain ⟨h1, h2, h3⟩ := main (poolMax type)
  cases type <;> exact ⟨h1, h2, h3⟩

/-! ## Stage B: loop lemmas -/

lemma append_singleton_nodup {sel : List ℤ} {x : ℤ} (h : sel.Nodup) (hx : x ∉ sel) :
    (sel ++ [x]).Nodup := by
  rw [List.nodup_append]
  refine ⟨h, List.nodup_singleton x, fun a ha hb => ?_⟩
  rw [List.mem_singleton] at hb
  exact hx (hb ▸ ha)

lemma selectBestLoop_spec :
    ∀ (cands : List NumberProbability) (sel : List ℤ),
      (sel ++ cands.map (fun p => p.number)).Nodup →
      (selectBestLoop cands sel).Nodup ∧
      (∀ x ∈ selectBestLoop cands sel, x ∈ sel ∨ x ∈ cands.map (fun p => p.number)) ∧
      sel.length ≤ (selectBestLoop cands sel).length ∧
      (selectBestLoop cands sel).length ≤ max sel.length 5 := by
  intro cands
  induction cands with
  | nil =>
    intro sel h
    rw [selectBestLoop]
    exact ⟨(List.nodup_append.mp h).1, fun x hx => Or.inl hx, le_refl _, le_max_left _ _⟩
  | cons c rest ih =>
    intro sel h
    have hnd : sel.Nodup := (List.nodup_append.mp h).1
    have hsub : (sel ++ rest.map (fun p => p.number)).Nodup :=
      h.sublist (List.Sublist.append_left (List.sublist_cons_self _ _) sel)
    rw [selectBestLoop]
    by_cases h5 : 5 ≤ sel.length
    · rw [if_pos h5]
      exact ⟨hnd, fun x hx => Or.inl hx, le_refl _, le_max_left _ _⟩
    · rw [if_neg h5]
      by_cases hc : 3 ≤ sel.length ∧ sel.any (fun n => (n - c.number).natAbs == 1) = true
      · rw [if_pos hc]
        obtain ⟨h1, h2, h3, h4⟩ := ih sel hsub
        refine ⟨h1, fun x hx => ?_, h3, h4⟩
        rcases h2 x hx with hs | hm
        · exact Or.inl hs
        · right; rw [List.map_cons]; exact List.mem_cons_of_mem _ hm
      · rw [if_neg hc]
        have hfresh : c.number ∉ sel := by
          intro hmem
          exact (List.nodup_append.mp h).2.2 hmem
            (by rw [List.map_cons]; exact List.mem_cons_self _ _)
        have hre : ((sel ++ [c.number]) ++ rest.map (fun p => p.number)).Nodup := by
          rw [List.append_assoc, List.singleton_append]
          exact (by rw [List.map_cons] at h; exact h)
        obtain ⟨h1, h2, h3, h4⟩ := ih (sel ++ [c.number]) hre
        refine ⟨h1, fun x hx => ?_, ?_, ?_⟩
        · rcases h2 x hx with hin | hm
          · rcases List.mem_append.mp hin with hs | hone
            · exact Or.inl hs
            · right
              rw [List.mem_singleton] at hone
              subst hone
              rw [List.map_cons]
              exact List.mem_cons_self _ _
          · right; rw [List.map_cons]; exact List.mem_cons_of_mem _ hm
        · exact le_trans (by simp) h3
        · have hl : (sel ++ [c.number]).length = sel.length + 1 := by simp
          rw [hl] at h4
          omega

lemma fillFrom_spec :
    ∀ (fuel : ℕ) (cands : List ℤ) (target : ℕ) (sel : List ℤ), sel.Nodup →
      (fillFrom cands target fuel sel).Nodup ∧
      (∀ x ∈ fillFrom cands target fuel sel, x ∈ sel ∨ x ∈ cands) ∧
      sel.length ≤ (fillFrom cands target fuel sel).length := by
  intro fuel
  induction fuel with
  | zero =>
    intro cands target sel h
    rw [fillFrom]
    exact ⟨h, fun x hx => Or.inl hx, le_refl _⟩
  | succ n ih =>
    intro cands target sel h
    rw [fillFrom]
    by_cases hlt : sel.length < target
    · rw [if_pos hlt]
      rcases hfil : cands.filter (fun c => !sel.contains c) with _ | ⟨r, rs⟩
      · exact ⟨h, fun x hx => Or.inl hx, le_refl _⟩
      · have hr : r ∈ cands.filter (fun c => !sel.contains c) := by
          rw [hfil]; exact List.mem_cons_self r rs
        have hrc : r ∈ cands := (List.mem_filter.mp hr).1
        have hrs : r ∉ sel := by simpa using (List.mem_filter.mp hr).2
        obtain ⟨h1, h2, h3⟩ := ih cands target (sel ++ [r]) (append_singleton_nodup h hrs)
        refine ⟨h1, fun x hx => ?_, le_trans (by simp) h3⟩
        rcases h2 x hx with hin | hc
        · rcases List.mem_append.mp hin with hs | hone
          · exact Or.inl hs
          · rw [List.mem_singleton] at hone; subst hone; exact Or.inr hrc
        · exact Or.inr hc
    · rw [if_neg hlt]
      exact ⟨h, fun x hx => Or.inl hx, le_refl _⟩

lemma fillFrom_length :
    ∀ (fuel : ℕ) (cands : List ℤ) (target : ℕ) (sel : List ℤ),
      sel.Nodup → cands.Nodup → target ≤ cands.length →
      sel.length ≤ target → target ≤ sel.length + fuel →
      (fillFrom cands target fuel sel).length = target := by
  intro fuel
  induction fuel with
  | zero =>
    intro cands target sel _ _ _ hle hge
    rw [fillFrom]
    omega
  | succ n ih =>
    intro cands target sel hnd hcnd htc hle hge
    rw [fillFrom]
    by_cases hlt : sel.length < target
    · rw [if_pos hlt]
      rcases hfil : cands.filter (fun c => !sel.contains c) with _ | ⟨r, rs⟩
      · exfalso
        have hall : ∀ c ∈ cands, c ∈ sel := by
          intro c hc
          have := List.filter_eq_nil_iff.mp hfil c hc
          simpa using this
        have := (List.subperm_of_subset hcnd hall).length_le
        omega
      · have hr : r ∈ cands.filter (fun c => !sel.contains c) := by
          rw [hfil]; exact List.mem_cons_self r rs
        have hrs : r ∉ sel := by simpa using (List.mem_filter.mp hr).2
        have hl : (sel ++ [r]).length = sel.length + 1 := by simp
        rw [ih cands target (sel ++ [r]) (append_singleton_nodup hnd hrs) hcnd htc
          (by omega) (by omega)]
    · rw [if_neg hlt]
      omega

lemma hotFold_spec :
    ∀ (cs : List NumberProbability) (sel : List ℤ), sel.Nodup →
      ((cs.foldl (fun s c => if s.contains c.number then s else s ++ [c.number]) sel).Nodup ∧
      (∀ x ∈ cs.foldl (fun s c => if s.contains c.number then s else s ++ [c.number]) sel,
        x ∈ sel ∨ x ∈ cs.map (fun p => p.number)) ∧
      sel.length ≤
        (cs.foldl (fun s c => if s.contains c.number then s else s ++ [c.number]) sel).length) := by
  intro cs
  induction cs with
  | nil =>
    intro sel h
    rw [List.foldl_nil]
    exact ⟨h, fun x hx => Or.inl hx, le_refl _⟩
  | cons c rest ih =>
    intro sel h
    rw [List.foldl_cons]
    by_cases hc : sel.contains c.number = true
    · rw [if_pos hc]
      obtain ⟨h1, h2, h3⟩ := ih sel h
      refine ⟨h1, fun x hx => ?_, h3⟩
      rcases h2 x hx with hs | hm
      · exact Or.inl hs
      · right; rw [List.map_cons]; exact List.mem_cons_of_mem _ hm
    · rw [if_neg hc]
      have hfresh : c.number ∉ sel := by simpa using hc
      obtain ⟨h1, h2, h3⟩ := ih (sel ++ [c.number]) (append_singleton_nodup h hfresh)
      refine ⟨h1, fun x hx => ?_, le_trans (by simp) h3⟩
      rcases h2 x hx with hin | hm
      · rcases List.mem_append.mp hin with hs | hone
        · exact Or.inl hs
        · right
          rw [List.mem_singleton] at hone
          subst hone
          rw [List.map_cons]
          exact List.mem_cons_self _ _
      · right; rw [List.map_cons]; exact List.mem_cons_of_mem _ hm

lemma overdueFold_spec :
    ∀ (cs : List NumberProbability) (sel : List ℤ), sel.Nodup →
      ((cs.foldl (fun s c =>
          if s.length < 5 ∧ ¬ s.contains c.number then s ++ [c.number] else s) sel).Nodup ∧
      (∀ x ∈ cs.foldl (fun s c =>
          if s.length < 5 ∧ ¬ s.contains c.number then s ++ [c.number] else s) sel,
        x ∈ sel ∨ x ∈ cs.map (fun p => p.number)) ∧
      sel.length ≤ (cs.foldl (fun s c =>
          if s.length < 5 ∧ ¬ s.contains c.number then s ++ [c.number] else s) sel).length ∧
      (cs.foldl (fun s c =>
          if s.length < 5 ∧ ¬ s.contains c.number then s ++ [c.number] else s) sel).length ≤
        max sel.length 5) := by
  intro cs
  induction cs with
  | nil =>
    intro sel h
    rw [List.foldl_nil]
    exact ⟨h, fun x hx => Or.inl hx, le_refl _, le_max_left _ _⟩
  | cons c rest ih =>
    intro sel h
    rw [List.foldl_cons]
    by_cases hc : sel.length < 5 ∧ ¬ sel.contains c.number = true
    · rw [if_pos hc]
      have hfresh : c.number ∉ sel := by simpa using hc.2
      obtain ⟨h1, h2, h3, h4⟩ := ih (sel ++ [c.number]) (append_singleton_nodup h hfresh)
      refine ⟨h1, fun x hx => ?_, le_trans (by simp) h3, ?_⟩
      · rcases h2 x hx with hin | hm
        · rcases List.mem_append.mp hin with hs | hone
          · exact Or.inl hs
          · right
            rw [List.mem_singleton] at hone
            subst hone
            rw [List.map_cons]
            exact List.mem_cons_self _ _
        · right; rw [List.map_cons]; exact List.mem_cons_of_mem _ hm
      · have hl : (sel ++ [c.number]).length = sel.length + 1 := by simp
        rw [hl] at h4
        omega
    · rw [if_neg hc]
      obtain ⟨h1, h2, h3, h4⟩ := ih sel h
      refine ⟨h1, fun x hx => ?_, h3, h4⟩
      rcases h2 x hx with hs | hm
      · exact Or.inl hs
      · right; rw [List.map_cons]; exact List.mem_cons_of_mem _ hm

lemma patternFold_spec :
    ∀ (cs : List NumberProbability) (t : PatternTally),
      (t.sel ++ cs.map (fun p => p.number)).Nodup →
      ((cs.foldl patternStep t).sel.Nodup ∧
      (∀ x ∈ (cs.foldl patternStep t).sel, x ∈ t.sel ∨ x ∈ cs.map (fun p => p.number)) ∧
      t.sel.length ≤ (cs.foldl patternStep t).sel.length ∧
      (cs.foldl patternStep t).sel.length ≤ max t.sel.length 5) := by
  intro cs
  induction cs with
  | nil =>
    intro t h
    rw [List.foldl_nil]
    exact ⟨(List.nodup_append.mp h).1, fun x hx => Or.inl hx, le_refl _, le_max_left _ _⟩
  | cons c rest ih =>
    intro t h
    have hsub : (t.sel ++ rest.map (fun p => p.number)).Nodup :=
      h.sublist (List.Sublist.append_left (List.sublist_cons_self _ _) t.sel)
    rw [List.foldl_cons]
    have hcase : patternStep t c = t ∨
        (¬ 5 ≤ t.sel.length ∧ (patternStep t c).sel = t.sel ++ [c.number]) := by
      rw [patternStep]
      by_cases h5 : 5 ≤ t.sel.length
      · rw [if_pos h5]; exact Or.inl rfl
      · rw [if_neg h5]
        simp only []
        by_cases b1 : c.number % 2 = 0 ∧ 3 ≤ t.evenCount
        · rw [if_pos b1]; exact Or.inl rfl
        · rw [if_neg b1]
          by_cases b2 : ¬ c.number % 2 = 0 ∧ 3 ≤ t.oddCount
          · rw [if_pos b2]; exact Or.inl rfl
          · rw [if_neg b2]
            by_cases b3 : c.number ≤ 25 ∧ 3 ≤ t.lowCount
            · rw [if_pos b3]; exact Or.inl rfl
            · rw [if_neg b3]
              by_cases b4 : ¬ c.number ≤ 25 ∧ 3 ≤ t.highCount
              · rw [if_pos b4]; exact Or.inl rfl
              · rw [if_neg b4]; exact Or.inr ⟨h5, rfl⟩
    rcases hcase with heq | ⟨h5, hpush⟩
    · rw [heq]
      obtain ⟨h1, h2, h3, h4⟩ := ih t hsub
      refine ⟨h1, fun x hx => ?_, h3, h4⟩
      rcases h2 x hx with hs | hm
      · exact Or.inl hs
      · right; rw [List.map_cons]; exact List.mem_cons_of_mem _ hm
    · have hre : ((patternStep t c).sel ++ rest.map (fun p => p.number)).Nodup := by
        rw [hpush, List.append_assoc, List.singleton_append]
        rw [List.map_cons] at h
        exact h
      obtain ⟨h1, h2, h3, h4⟩ := ih (patternStep t c) hre
      rw [hpush] at h2 h3 h4
      refine ⟨h1, fun x hx => ?_, ?_, ?_⟩
      · rcases h2 x hx with hin | hm
        · rcases List.mem_append.mp hin with hs | hone
          · exact Or.inl hs
          · right
            rw [List.mem_singleton] at hone
            subst hone
            rw [List.map_cons]
            exact List.mem_cons_self _ _
        · right; rw [List.map_cons]; exact List.mem_cons_of_mem _ hm
      · exact le_trans (by simp) h3
      · have hl : (t.sel ++ [c.number]).length = t.sel.length + 1 := by simp
        rw [hl] at h4
        omega

lemma pickOne_spec :
    ∀ (cands : List NumberProbability) (sel : List ℤ) (rv cum : ℚ) (n : ℤ),
      pickOne sel rv cands cum = some n → n ∉ sel ∧ n ∈ cands.map (fun p => p.number) := by
  intro cands
  induction cands with
  | nil =>
    intro sel rv cum n h
    rw [pickOne] at h
    exact nomatch h
  | cons c rest ih =>
    intro sel rv cum n h
    rw [pickOne] at h
    by_cases hc : sel.contains c.number = true
    · rw [if_pos hc] at h
      obtain ⟨h1, h2⟩ := ih sel rv _ n h
      exact ⟨h1, by rw [List.map_cons]; exact List.mem_cons_of_mem _ h2⟩
    · rw [if_neg hc] at h
      by_cases hr : rv ≤ cum + (c.totalScore : ℚ)
      · rw [if_pos hr] at h
        obtain rfl : c.number = n := by injection h
        exact ⟨by simpa using hc, by rw [List.map_cons]; exact List.mem_cons_self _ _⟩
      · rw [if_neg hr] at h
        obtain ⟨h1, h2⟩ := ih sel rv _ n h
        exact ⟨h1, by rw [List.map_cons]; exact List.mem_cons_of_mem _ h2⟩

lemma wrFallback_spec (cands : List NumberProbability) (i : ℕ) (after : List ℤ)
    (hnd : after.Nodup) (hsub : ∀ x ∈ after, x ∈ cands.map (fun p => p.number))
    (hcnd : (cands.map (fun p => p.number)).Nodup) (hlt : i < cands.length) :
    (wrFallback cands i after).Nodup ∧
    (∀ x ∈ wrFallback cands i after, x ∈ cands.map (fun p => p.number)) ∧
    (after.length = i → (wrFallback cands i after).length = i + 1) ∧
    (after.length ≠ i → wrFallback cands i after = after) := by
  rw [wrFallback]
  by_cases heq : after.length = i
  · rw [if_pos heq]
    split
    · rename_i c hfind
      have hcm := List.mem_of_find?_eq_some hfind
      have hfresh : c.number ∉ after := by simpa using List.find?_some hfind
      refine ⟨append_singleton_nodup hnd hfresh, fun x hx => ?_, fun _ => by simp [heq],
        fun hne => absurd heq hne⟩
      rcases List.mem_append.mp hx with hs | hone
      · exact hsub x hs
      · rw [List.mem_singleton] at hone
        subst hone
        exact List.mem_map.mpr ⟨c, hcm, rfl⟩
    · rename_i hfind
      exfalso
      have hall : ∀ c ∈ cands, c.number ∈ after := by
        intro c hc
        have := List.find?_eq_none.mp hfind c hc
        simpa using this
      have hsub2 : ∀ x ∈ cands.map (fun p => p.number), x ∈ after := by
        intro x hx
        obtain ⟨c, hc, rfl⟩ := List.mem_map.mp hx
        exact hall c hc
      have hle := (List.subperm_of_subset hcnd hsub2).length_le
      rw [List.length_map] at hle
      omega
  · rw [if_neg heq]
    exact ⟨hnd, hsub, fun hi => absurd hi heq, fun _ => rfl⟩

lemma wrRound_spec (cands : List NumberProbability) (i : ℕ) (sel : List ℤ) (rv : ℚ)
    (hnd : sel.Nodup) (hsel : ∀ x ∈ sel, x ∈ cands.map (fun p => p.number))
    (hlen : sel.length = i)
    (hcnd : (cands.map (fun p => p.number)).Nodup) (hlt : i < cands.length) :
    (wrRound cands i sel rv).Nodup ∧
    (∀ x ∈ wrRound cands i sel rv, x ∈ cands.map (fun p => p.number)) ∧
    (wrRound cands i sel rv).length = i + 1 := by
  rcases hpick : pickOne sel rv cands 0 with _ | n
  · have heq : wrRound cands i sel rv = wrFallback cands i sel := by
      rw [wrRound, hpick]
    rw [heq]
    obtain ⟨h1, h2, h3, h4⟩ := wrFallback_spec cands i sel hnd hsel hcnd hlt
    exact ⟨h1, h2, h3 hlen⟩
  · have heq : wrRound cands i sel rv = wrFallback cands i (sel ++ [n]) := by
      rw [wrRound, hpick]
    rw [heq]
    obtain ⟨hfresh, hmem⟩ := pickOne_spec cands sel rv 0 n hpick
    have hnd2 : (sel ++ [n]).Nodup := append_singleton_nodup hnd hfresh
    have hsub2 : ∀ x ∈ sel ++ [n], x ∈ cands.map (fun p => p.number) := by
      intro x hx
      rcases List.mem_append.mp hx with hs | hone
      · exact hsel x hs
      · rw [List.mem_singleton] at hone
        subst hone
        exact hmem
    obtain ⟨h1, h2, h3, h4⟩ := wrFallback_spec cands i (sel ++ [n]) hnd2 hsub2 hcnd hlt
    have hne : (sel ++ [n]).length ≠ i := by simp [hlen]
    rw [h4 hne]
    exact ⟨hnd2, hsub2, by simp [hlen]⟩

lemma wrFold_spec (cands : List NumberProbability) (rv : ℕ → ℚ) (rounds : ℕ)
    (hcnd : (cands.map (fun p => p.number)).Nodup) (hle : rounds ≤ cands.length) :
    ((List.range rounds).foldl (fun s i => wrRound cands i s (rv i)) []).Nodup ∧
    (∀ x ∈ (List.range rounds).foldl (fun s i => wrRound cands i s (rv i)) [],
      x ∈ cands.map (fun p => p.number)) ∧
    ((List.range rounds).foldl (fun s i => wrRound cands i s (rv i)) []).length = rounds := by
  induction rounds with
  | zero => simp
  | succ n ih =>
    obtain ⟨h1, h2, h3⟩ := ih (by omega)
    rw [List.range_succ, List.foldl_append, List.foldl_cons, List.foldl_nil]
    exact wrRound_spec cands n _ (rv n) h1 h2 h3 hcnd (by omega)

/-! ## Stage C: selector specifications -/

lemma hotFold_len :
    ∀ (cs : List NumberProbability) (sel : List ℤ),
      (cs.foldl (fun s c => if s.contains c.number then s else s ++ [c.number]) sel).length ≤
        sel.length + cs.length := by
  intro cs
  induction cs with
  | nil => intro sel; simp
  | cons c rest ih =>
    intro sel
    rw [List.foldl_cons]
    by_cases hc : sel.contains c.number = true
    · rw [if_pos hc]
      have := ih sel
      simp only [List.length_cons]
      omega
    · rw [if_neg hc]
      have := ih (sel ++ [c.number])
      simp only [List.length_cons]
      simp only [List.length_append, List.length_singleton] at this
      omega

lemma take_numsNodup (l : List NumberProbability) (k : ℕ)
    (h : (l.map (fun p => p.number)).Nodup) :
    ((l.take k).map (fun p => p.number)).Nodup := by
  rw [List.map_take]
  exact h.sublist (List.take_sublist k _)

lemma mem_take_map {l : List NumberProbability} {k : ℕ} {x : ℤ}
    (hx : x ∈ (l.take k).map (fun p => p.number)) : x ∈ l.map (fun p => p.number) := by
  rw [List.map_take] at hx
  exact (List.take_sublist _ _).subset hx

lemma sort_numsNodup (l : List NumberProbability)
    (r : NumberProbability → NumberProbability → Prop) [DecidableRel r]
    (h : (l.map (fun p => p.number)).Nodup) :
    ((l.insertionSort r).map (fun p => p.number)).Nodup :=
  ((List.perm_insertionSort r l).map _).nodup_iff.mpr h

lemma mem_sort_map {l : List NumberProbability}
    {r : NumberProbability → NumberProbability → Prop} [DecidableRel r] {x : ℤ}
    (hx : x ∈ (l.insertionSort r).map (fun p => p.number)) :
    x ∈ l.map (fun p => p.number) :=
  ((List.perm_insertionSort r l).map _).subset hx

lemma selectBestNumbers_spec (numberProbs : List NumberProbability) (draws : List Draw)
    (hnd : (numberProbs.map (fun p => p.number)).Nodup) (hlen : 15 ≤ numberProbs.length) :
    (selectBestNumbers numberProbs draws).length = 5 ∧
    (selectBestNumbers numberProbs draws).Nodup ∧
    ∀ x ∈ selectBestNumbers numberProbs draws, x ∈ numberProbs.map (fun p => p.number) := by
  simp only [selectBestNumbers]
  have htopnd : ((numberProbs.take 15).map (fun p => p.number)).Nodup := take_numsNodup _ _ hnd
  obtain ⟨s1, s2, s3, s4⟩ := selectBestLoop_spec (numberProbs.take 15) [] (by simpa using htopnd)
  have hsl : (selectBestLoop (numberProbs.take 15) []).length ≤ 5 := by simpa using s4
  have htlen : 5 ≤ ((numberProbs.take 15).map (fun p => p.number)).length := by
    rw [List.length_map, List.length_take]
    omega
  have hfl := fillFrom_length 5 ((numberProbs.take 15).map (fun p => p.number)) 5
    (selectBestLoop (numberProbs.take 15) []) s1 htopnd htlen hsl (by omega)
  obtain ⟨f1, f2, f3⟩ := fillFrom_spec 5 ((numberProbs.take 15).map (fun p => p.number)) 5
    (selectBestLoop (numberProbs.take 15) []) s1
  have hperm := List.perm_insertionSort (fun a b : ℤ => a ≤ b)
    (fillFrom ((numberProbs.take 15).map (fun p => p.number)) 5 5
      (selectBestLoop (numberProbs.take 15) []))
  refine ⟨hperm.length_eq.trans hfl, hperm.nodup_iff.mpr f1, fun x hx => ?_⟩
  rcases f2 x (hperm.subset hx) with hsel | htop
  · rcases s2 x hsel with hnil | htop2
    · exact absurd hnil (List.not_mem_nil x)
    · exact mem_take_map htop2
  · exact mem_take_map htop

lemma selectBestStars_spec (starProbs : List NumberProbability) (draws : List Draw)
    (hnd : (starProbs.map (fun p => p.number)).Nodup) (hlen : 2 ≤ starProbs.length) :
    (selectBestStars starProbs draws).length = 2 ∧
    (selectBestStars starProbs draws).Nodup ∧
    ∀ x ∈ selectBestStars starProbs draws, x ∈ starProbs.map (fun p => p.number) := by
  simp only [selectBestStars]
  have hperm := List.perm_insertionSort (fun a b : ℤ => a ≤ b)
    ((starProbs.take 2).map (fun p => p.number))
  refine ⟨?_, hperm.nodup_iff.mpr (take_numsNodup _ _ hnd), fun x hx => ?_⟩
  · rw [hperm.length_eq, List.length_map, List.length_take]
    omega
  · exact mem_take_map (hperm.subset hx)

lemma selectBalancedNumbers_spec (numberProbs : List NumberProbability) (draws : List Draw)
    (hnd : (numberProbs.map (fun p => p.number)).Nodup) (hlen : 5 ≤ numberProbs.length) :
    (selectBalancedNumbers numberProbs draws).length = 5 ∧
    (selectBalancedNumbers numberProbs draws).Nodup ∧
    ∀ x ∈ selectBalancedNumbers numberProbs draws, x ∈ numberProbs.map (fun p => p.number) := by
  simp only [selectBalancedNumbers]
  set hotTop := (numberProbs.insertionSort (fun a b => b.hotColdScore ≤ a.hotColdScore)).take 10
    with hht
  set odTop := (numberProbs.insertionSort (fun a b => b.overdueScore ≤ a.overdueScore)).take 10
    with hod
  set sel1 := (hotTop.take 3).foldl
    (fun sel c => if sel.contains c.number then sel else sel ++ [c.number]) [] with hs1
  set sel2 := odTop.foldl
    (fun sel c => if sel.length < 5 ∧ ¬ sel.contains c.number then sel ++ [c.number] else sel)
    sel1 with hs2
  obtain ⟨a1, a2, a3⟩ := hotFold_spec (hotTop.take 3) [] List.nodup_nil
  have ha4 := hotFold_len (hotTop.take 3) []
  rw [← hs1] at a1 a2 a3 ha4
  have hd3 : (hotTop.take 3).length ≤ 3 := by
    rw [List.length_take]
    exact min_le_left _ _
  have hnil : ([] : List ℤ).length = 0 := rfl
  have hsel1len : sel1.length ≤ 3 := by omega
  obtain ⟨b1, b2, b3, b4⟩ := overdueFold_spec odTop sel1 a1
  rw [← hs2] at b1 b2 b3 b4
  have hsel2len : sel2.length ≤ 5 := by omega
  have hclen : 5 ≤ (numberProbs.map (fun p => p.number)).length := by
    rw [List.length_map]; omega
  have hfl := fillFrom_length 5 (numberProbs.map (fun p => p.number)) 5 sel2 b1 hnd hclen
    hsel2len (by omega)
  obtain ⟨f1, f2, f3⟩ := fillFrom_spec 5 (numberProbs.map (fun p => p.number)) 5 sel2 b1
  have hperm := List.perm_insertionSort (fun a b : ℤ => a ≤ b)
    (fillFrom (numberProbs.map (fun p => p.number)) 5 5 sel2)
  refine ⟨hperm.length_eq.trans hfl, hperm.nodup_iff.mpr f1, fun x hx => ?_⟩
  rcases f2 x (hperm.subset hx) with hsel | hfull
  · rcases b2 x hsel with hsel1 | hmo
    · rcases a2 x hsel1 with hnil2 | hhot
      · exact absurd hnil2 (List.not_mem_nil x)
      · rw [hht] at hhot
        exact mem_sort_map (mem_take_map (mem_take_map hhot))
    · rw [hod] at hmo
      exact mem_sort_map (mem_take_map hmo)
  · exact hfull

lemma selectBalancedStars_spec (starProbs : List NumberProbability) (draws : List Draw)
    (hnd : (starProbs.map (fun p => p.number)).Nodup) (hlen : 2 ≤ starProbs.length) :
    (selectBalancedStars starProbs draws).length = 2 ∧
    (selectBalancedStars starProbs draws).Nodup ∧
    ∀ x ∈ selectBalancedStars starProbs draws, x ∈ starProbs.map (fun p => p.number) := by
  simp only [selectBalancedStars]
  have main : ∀ sel2 : List ℤ, sel2.Nodup → sel2.length ≤ 2 →
      (∀ x ∈ sel2, x ∈ starProbs.map (fun p => p.number)) →
      ((fillFrom (starProbs.map (fun p => p.number)) 2 2 sel2).insertionSort
        (fun a b => a ≤ b)).length = 2 ∧
      ((fillFrom (starProbs.map (fun p => p.number)) 2 2 sel2).insertionSort
        (fun a b => a ≤ b)).Nodup ∧
      ∀ x ∈ (fillFrom (starProbs.map (fun p => p.number)) 2 2 sel2).insertionSort
        (fun a b => a ≤ b), x ∈ starProbs.map (fun p => p.number) := by
    intro sel2 h1 h2 h3
    have hclen : 2 ≤ (starProbs.map (fun p => p.number)).length := by
      rw [List.length_map]; omega
    have hfl := fillFrom_length 2 (starProbs.map (fun p => p.number)) 2 sel2 h1 hnd hclen h2
      (by omega)
    obtain ⟨f1, f2, f3⟩ := fillFrom_spec 2 (starProbs.map (fun p => p.number)) 2 sel2 h1
    have hperm := List.perm_insertionSort (fun a b : ℤ => a ≤ b)
      (fillFrom (starProbs.map (fun p => p.number)) 2 2 sel2)
    refine ⟨hperm.length_eq.trans hfl, hperm.nodup_iff.mpr f1, fun x hx => ?_⟩
    rcases f2 x (hperm.subset hx) with hs | hf
    · exact h3 x hs
    · exact hf
  have sel1facts : ∀ sel1 : List ℤ, sel1.Nodup → sel1.length ≤ 1 →
      (∀ x ∈ sel1, x ∈ starProbs.map (fun p => p.number)) →
      ((match (starProbs.insertionSort (fun a b => b.overdueScore ≤ a.overdueScore)).find?
          (fun s => !sel1.contains s.number) with
        | some s => sel1 ++ [s.number]
        | none => sel1) : List ℤ).Nodup ∧
      ((match (starProbs.insertionSort (fun a b => b.overdueScore ≤ a.overdueScore)).find?
          (fun s => !sel1.contains s.number) with
        | some s => sel1 ++ [s.number]
        | none => sel1) : List ℤ).length ≤ 2 ∧
      ∀ x ∈ ((match (starProbs.insertionSort (fun a b => b.overdueScore ≤ a.overdueScore)).find?
          (fun s => !sel1.contains s.number) with
        | some s => sel1 ++ [s.number]
        | none => sel1) : List ℤ), x ∈ starProbs.map (fun p => p.number) := by
    intro sel1 h1 h2 h3
    rcases hf : (starProbs.insertionSort (fun a b => b.overdueScore ≤ a.overdueScore)).find?
        (fun s => !sel1.contains s.number) with _ | s
    · rw [hf]
      refine ⟨h1, ?_, h3⟩
      show sel1.length ≤ 2
      omega
    · rw [hf]
      have hsm := List.mem_of_find?_eq_some hf
      have hfresh : s.number ∉ sel1 := by simpa using List.find?_some hf
      refine ⟨append_singleton_nodup h1 hfresh, ?_, fun x hx => ?_⟩
      · show (sel1 ++ [s.number]).length ≤ 2
        rw [List.length_append, List.length_singleton]
        omega
      · rcases List.mem_append.mp hx with ha | hb
        · exact h3 x ha
        · rw [List.mem_singleton] at hb
          subst hb
          exact mem_sort_map (List.mem_map.mpr ⟨s, hsm, rfl⟩)
  rcases hcase : starProbs.insertionSort (fun a b => b.hotColdScore ≤ a.hotColdScore)
      with _ | ⟨hd, tl⟩
  · rw [hcase]
    obtain ⟨c1, c2, c3⟩ := sel1facts [] List.nodup_nil (by simp) (by simp)
    exact main _ c1 c2 c3
  · rw [hcase]
    have hhd : hd.number ∈ starProbs.map (fun p => p.number) := by
      have hmem : hd ∈ starProbs.insertionSort (fun a b => b.hotColdScore ≤ a.hotColdScore) := by
        rw [hcase]
        exact List.mem_cons_self _ _
      exact mem_sort_map (List.mem_map.mpr ⟨hd, hmem, rfl⟩)
  -- wrong: mem_sort_map expects membership in sort's map; rework below
    obtain ⟨c1, c2, c3⟩ := sel1facts [hd.number] (List.nodup_singleton _) (by simp)
      (by
        intro x hx
        rw [List.mem_singleton] at hx
        subst hx
        exact hhd)
    exact main _ c1 c2 c3

lemma selectPatternNumbers_spec (numberProbs : List NumberProbability) (draws : List Draw)
    (hnd : (numberProbs.map (fun p => p.number)).Nodup) (hlen : 5 ≤ numberProbs.length) :
    (selectPatternNumbers numberProbs draws).length = 5 ∧
    (selectPatternNumbers numberProbs draws).Nodup ∧
    ∀ x ∈ selectPatternNumbers numberProbs draws, x ∈ numberProbs.map (fun p => p.number) := by
  simp only [selectPatternNumbers]
  obtain ⟨p1, p2, p3, p4⟩ := patternFold_spec (numberProbs.take 20)
    (⟨[], 0, 0, 0, 0⟩ : PatternTally) (by simpa using take_numsNodup numberProbs 20 hnd)
  have hsl : ((numberProbs.take 20).foldl patternStep
      (⟨[], 0, 0, 0, 0⟩ : PatternTally)).sel.length ≤ 5 := by simpa using p4
  have htlen : 5 ≤ ((numberProbs.take 20).map (fun p => p.number)).length := by
    rw [List.length_map, List.length_take]
    omega
  have hfl := fillFrom_length 5 ((numberProbs.take 20).map (fun p => p.number)) 5
    ((numberProbs.take 20).foldl patternStep (⟨[], 0, 0, 0, 0⟩ : PatternTally)).sel p1
    (take_numsNodup _ _ hnd) htlen hsl (by omega)
  obtain ⟨f1, f2, f3⟩ := fillFrom_spec 5 ((numberProbs.take 20).map (fun p => p.number)) 5
    ((numberProbs.take 20).foldl patternStep (⟨[], 0, 0, 0, 0⟩ : PatternTally)).sel p1
  have hperm := List.perm_insertionSort (fun a b : ℤ => a ≤ b)
    (fillFrom ((numberProbs.take 20).map (fun p => p.number)) 5 5
      ((numberProbs.take 20).foldl patternStep (⟨[], 0, 0, 0, 0⟩ : PatternTally)).sel)
  refine ⟨hperm.length_eq.trans hfl, hperm.nodup_iff.mpr f1, fun x hx => ?_⟩
  rcases f2 x (hperm.subset hx) with hsel | htop
  · rcases p2 x hsel with hnil | htop2
    · exact absurd hnil (List.not_mem_nil x)
    · exact mem_take_map htop2
  · exact mem_take_map htop

lemma selectWeightedRandomNumbers_spec (numberProbs : List NumberProbability) (rnd : ℕ → ℚ)
    (hnd : (numberProbs.map (fun p => p.number)).Nodup) (hlen : 5 ≤ numberProbs.length) :
    (selectWeightedRandomNumbers numberProbs rnd).length = 5 ∧
    (selectWeightedRandomNumbers numberProbs rnd).Nodup ∧
    ∀ x ∈ selectWeightedRandomNumbers numberProbs rnd,
      x ∈ numberProbs.map (fun p => p.number) := by
  simp only [selectWeightedRandomNumbers]
  have hcnd := take_numsNodup numberProbs 25 hnd
  have hround : 5 ≤ (numberProbs.take 25).length := by
    rw [List.length_take]
    omega
  obtain ⟨w1, w2, w3⟩ := wrFold_spec (numberProbs.take 25)
    (fun i => rnd i * ((((numberProbs.take 25).map (fun p => p.totalScore)).sum : ℤ) : ℚ))
    5 hcnd hround
  have hperm := List.perm_insertionSort (fun a b : ℤ => a ≤ b)
    ((List.range 5).foldl
      (fun sel i => wrRound (numberProbs.take 25) i sel
        (rnd i * ((((numberProbs.take 25).map (fun p => p.totalScore)).sum : ℤ) : ℚ))) [])
  refine ⟨hperm.length_eq.trans w3, hperm.nodup_iff.mpr w1, fun x hx => ?_⟩
  exact mem_take_map (w2 x (hperm.subset hx))

lemma selectWeightedRandomStars_spec (starProbs : List NumberProbability) (rnd : ℕ → ℚ)
    (hnd : (starProbs.map (fun p => p.number)).Nodup) (hlen : 2 ≤ starProbs.length) :
    (selectWeightedRandomStars starProbs rnd).length = 2 ∧
    (selectWeightedRandomStars starProbs rnd).Nodup ∧
    ∀ x ∈ selectWeightedRandomStars starProbs rnd,
      x ∈ starProbs.map (fun p => p.number) := by
  simp only [selectWeightedRandomStars]
  have hcnd := take_numsNodup starProbs 6 hnd
  have hround : 2 ≤ (starProbs.take 6).length := by
    rw [List.length_take]
    omega
  obtain ⟨w1, w2, w3⟩ := wrFold_spec (starProbs.take 6)
    (fun i => rnd i * ((((starProbs.take 6).map (fun p => p.totalScore)).sum : ℤ) : ℚ))
    2 hcnd hround
  have hperm := List.perm_insertionSort (fun a b : ℤ => a ≤ b)
    ((List.range 2).foldl
      (fun sel i => wrRound (starProbs.take 6) i sel
        (rnd i * ((((starProbs.take 6).map (fun p => p.totalScore)).sum : ℤ) : ℚ))) [])
  refine ⟨hperm.length_eq.trans w3, hperm.nodup_iff.mpr w1, fun x hx => ?_⟩
  exact mem_take_map (w2 x (hperm.subset hx))

/-! ## Stage D: the generator theorem -/

lemma withRanks_length : ∀ (i : ℕ) (l : List GeneratedCombination),
    (withRanks i l).length = l.length := by
  intro i l
  induction l generalizing i with
  | nil => rfl
  | cons c rest ih =>
    rw [withRanks]
    simp [ih]

lemma withRanks_map_rank : ∀ (i : ℕ) (l : List GeneratedCombination),
    (withRanks i l).map (fun c => c.rank) = List.range' (i + 1) l.length := by
  intro i l
  induction l generalizing i with
  | nil => rfl
  | cons c rest ih =>
    rw [withRanks, List.map_cons, ih]
    rfl

lemma mem_withRanks : ∀ (i : ℕ) (l : List GeneratedCombination) (x : GeneratedCombination),
    x ∈ withRanks i l → ∃ c ∈ l, x.numbers = c.numbers ∧ x.stars = c.stars ∧
      x.probabilityScore = c.probabilityScore := by
  intro i l
  induction l generalizing i with
  | nil =>
    intro x hx
    exact absurd hx (List.not_mem_nil x)
  | cons c rest ih =>
    intro x hx
    rw [withRanks] at hx
    rcases List.mem_cons.mp hx with rfl | hm
    · exact ⟨c, List.mem_cons_self _ _, rfl, rfl, rfl⟩
    · obtain ⟨c2, hc2, h⟩ := ih (i + 1) x hm
      exact ⟨c2, List.mem_cons_of_mem _ hc2, h⟩

lemma sorted_withRanks : ∀ (i : ℕ) (l : List GeneratedCombination),
    List.Sorted (fun a b : GeneratedCombination =>
      b.probabilityScore.getD 0 ≤ a.probabilityScore.getD 0) l →
    List.Sorted (fun a b : GeneratedCombination =>
      b.probabilityScore.getD 0 ≤ a.probabilityScore.getD 0) (withRanks i l) := by
  intro i l
  induction l generalizing i with
  | nil => intro h; exact h
  | cons c rest ih =>
    intro h
    rw [withRanks]
    rw [List.sorted_cons] at h ⊢
    obtain ⟨h1, h2⟩ := h
    refine ⟨fun b hb => ?_, ih (i + 1) h2⟩
    obtain ⟨c2, hc2, hn, hs, hp⟩ := mem_withRanks (i + 1) rest b hb
    rw [hp]
    exact h1 c2 hc2

lemma mem_gap_bound {draws : List Draw} {type : PoolType} {x : ℤ}
    (hx : x ∈ (getAllNumberProbabilities draws type).map (fun p => p.number)) :
    1 ≤ x ∧ x ≤ poolMax type := by
  obtain ⟨p, hp, rfl⟩ := List.mem_map.mp hx
  exact (gap_facts draws type).2.2 p hp

lemma genFinal_facts (combos : List GeneratedCombination) (n : ℕ)
    (hlen : combos.length = n)
    (hprops : ∀ c ∈ combos,
      c.numbers.length = 5 ∧ c.numbers.Nodup ∧ (∀ x ∈ c.numbers, 1 ≤ x ∧ x ≤ 50) ∧
      c.stars.length = 2 ∧ c.stars.Nodup ∧ (∀ x ∈ c.stars, 1 ≤ x ∧ x ≤ 12)) :
    (withRanks 0 (combos.insertionSort (fun a b =>
      b.probabilityScore.getD 0 ≤ a.probabilityScore.getD 0))).length = n ∧
    (withRanks 0 (combos.insertionSort (fun a b =>
      b.probabilityScore.getD 0 ≤ a.probabilityScore.getD 0))).map (fun c => c.rank) =
      List.range' 1 n ∧
    List.Sorted (fun a b : GeneratedCombination =>
      b.probabilityScore.getD 0 ≤ a.probabilityScore.getD 0)
      (withRanks 0 (combos.insertionSort (fun a b =>
        b.probabilityScore.getD 0 ≤ a.probabilityScore.getD 0))) ∧
    ∀ c ∈ withRanks 0 (combos.insertionSort (fun a b =>
        b.probabilityScore.getD 0 ≤ a.probabilityScore.getD 0)),
      c.numbers.length = 5 ∧ c.numbers.Nodup ∧ (∀ x ∈ c.numbers, 1 ≤ x ∧ x ≤ 50) ∧
      c.stars.length = 2 ∧ c.stars.Nodup ∧ (∀ x ∈ c.stars, 1 ≤ x ∧ x ≤ 12) := by
  haveI : IsTotal GeneratedCombination (fun a b =>
      b.probabilityScore.getD 0 ≤ a.probabilityScore.getD 0) :=
    ⟨fun a b => le_total _ _⟩
  haveI : IsTrans GeneratedCombination (fun a b =>
      b.probabilityScore.getD 0 ≤ a.probabilityScore.getD 0) :=
    ⟨fun _ _ _ h1 h2 => le_trans h2 h1⟩
  have hperm := List.perm_insertionSort (fun a b : GeneratedCombination =>
    b.probabilityScore.getD 0 ≤ a.probabilityScore.getD 0) combos
  refine ⟨?_, ?_, ?_, ?_⟩
  · rw [withRanks_length, List.length_insertionSort, hlen]
  · rw [withRanks_map_rank, List.length_insertionSort, hlen]
  · exact sorted_withRanks 0 _ (List.sorted_insertionSort _ _)
  · intro c hc
    obtain ⟨c2, hc2, hn, hs, _⟩ := mem_withRanks 0 _ c hc
    obtain ⟨q1, q2, q3, q4, q5, q6⟩ := hprops c2 (hperm.subset hc2)
    rw [hn, hs]
    exact ⟨q1, q2, q3, q4, q5, q6⟩

lemma slotNumbers_spec (draws : List Draw) (rndN : ℕ → ℕ → ℚ) (i : ℕ) :
    (if i = 0 then selectBestNumbers (getAllNumberProbabilities draws .numbers) draws
     else if i = 1 then selectBalancedNumbers (getAllNumberProbabilities draws .numbers) draws
     else if i = 2 then selectPatternNumbers (getAllNumberProbabilities draws .numbers) draws
     else selectWeightedRandomNumbers (getAllNumberProbabilities draws .numbers)
       (rndN i)).length = 5 ∧
    (if i = 0 then selectBestNumbers (getAllNumberProbabilities draws .numbers) draws
     else if i = 1 then selectBalancedNumbers (getAllNumberProbabilities draws .numbers) draws
     else if i = 2 then selectPatternNumbers (getAllNumberProbabilities draws .numbers) draws
     else selectWeightedRandomNumbers (getAllNumberProbabilities draws .numbers)
       (rndN i)).Nodup ∧
    ∀ x ∈ (if i = 0 then selectBestNumbers (getAllNumberProbabilities draws .numbers) draws
     else if i = 1 then selectBalancedNumbers (getAllNumberProbabilities draws .numbers) draws
     else if i = 2 then selectPatternNumbers (getAllNumberProbabilities draws .numbers) draws
     else selectWeightedRandomNumbers (getAllNumberProbabilities draws .numbers) (rndN i)),
      1 ≤ x ∧ x ≤ 50 := by
  obtain ⟨g1, g2, g3⟩ := gap_facts draws .numbers
  have hb : ∀ x ∈ (getAllNumberProbabilities draws .numbers).map (fun p => p.number),
      1 ≤ x ∧ x ≤ 50 := fun x hx => mem_gap_bound hx
  by_cases h0 : i = 0
  · rw [if_pos h0]
    obtain ⟨s1, s2, s3⟩ := selectBestNumbers_spec (getAllNumberProbabilities draws .numbers)
      draws g2 (by rw [g1]; decide)
    exact ⟨s1, s2, fun x hx => hb x (s3 x hx)⟩
  · rw [if_neg h0]
    by_cases h1 : i = 1
    · rw [if_pos h1]
      obtain ⟨s1, s2, s3⟩ := selectBalancedNumbers_spec (getAllNumberProbabilities draws .numbers)
        draws g2 (by rw [g1]; decide)
      exact ⟨s1, s2, fun x hx => hb x (s3 x hx)⟩
    · rw [if_neg h1]
      by_cases h2 : i = 2
      · rw [if_pos h2]
        obtain ⟨s1, s2, s3⟩ := selectPatternNumbers_spec (getAllNumberProbabilities draws .numbers)
          draws g2 (by rw [g1]; decide)
        exact ⟨s1, s2, fun x hx => hb x (s3 x hx)⟩
      · rw [if_neg h2]
        obtain ⟨s1, s2, s3⟩ := selectWeightedRandomNumbers_spec
          (getAllNumberProbabilities draws .numbers) (rndN i) g2 (by rw [g1]; decide)
        exact ⟨s1, s2, fun x hx => hb x (s3 x hx)⟩

lemma slotStars_spec (draws : List Draw) (rndS : ℕ → ℕ → ℚ) (i : ℕ) :
    (if i = 0 then selectBestStars (getAllNumberProbabilities draws .stars) draws
     else if i = 1 then selectBalancedStars (getAllNumberProbabilities draws .stars) draws
     else if i = 2 then selectBestStars (getAllNumberProbabilities draws .stars) draws
     else selectWeightedRandomStars (getAllNumberProbabilities draws .stars)
       (rndS i)).length = 2 ∧
    (if i = 0 then selectBestStars (getAllNumberProbabilities draws .stars) draws
     else if i = 1 then selectBalancedStars (getAllNumberProbabilities draws .stars) draws
     else if i = 2 then selectBestStars (getAllNumberProbabilities draws .stars) draws
     else selectWeightedRandomStars (getAllNumberProbabilities draws .stars)
       (rndS i)).Nodup ∧
    ∀ x ∈ (if i = 0 then selectBestStars (getAllNumberProbabilities draws .stars) draws
     else if i = 1 then selectBalancedStars (getAllNumberProbabilities draws .stars) draws
     else if i = 2 then selectBestStars (getAllNumberProbabilities draws .stars) draws
     else selectWeightedRandomStars (getAllNumberProbabilities draws .stars) (rndS i)),
      1 ≤ x ∧ x ≤ 12 := by
  obtain ⟨g1, g2, g3⟩ := gap_facts draws .stars
  have hb : ∀ x ∈ (getAllNumberProbabilities draws .stars).map (fun p => p.number),
      1 ≤ x ∧ x ≤ 12 := fun x hx => mem_gap_bound hx
  by_cases h0 : i = 0
  · rw [if_pos h0]
    obtain ⟨s1, s2, s3⟩ := selectBestStars_spec (getAllNumberProbabilities draws .stars)
      draws g2 (by rw [g1]; decide)
    exact ⟨s1, s2, fun x hx => hb x (s3 x hx)⟩
  · rw [if_neg h0]
    by_cases h1 : i = 1
    · rw [if_pos h1]
      obtain ⟨s1, s2, s3⟩ := selectBalancedStars_spec (getAllNumberProbabilities draws .stars)
        draws g2 (by rw [g1]; decide)
      exact ⟨s1, s2, fun x hx => hb x (s3 x hx)⟩
    · rw [if_neg h1]
      by_cases h2 : i = 2
      · rw [if_pos h2]
        obtain ⟨s1, s2, s3⟩ := selectBestStars_spec (getAllNumberProbabilities draws .stars)
          draws g2 (by rw [g1]; decide)
        exact ⟨s1, s2, fun x hx => hb x (s3 x hx)⟩
      · rw [if_neg h2]
        obtain ⟨s1, s2, s3⟩ := selectWeightedRandomStars_spec
          (getAllNumberProbabilities draws .stars) (rndS i) g2 (by rw [g1]; decide)
        exact ⟨s1, s2, fun x hx => hb x (s3 x hx)⟩

/-- Claim C5: for every draw history, every integer count, and arbitrary PRNG streams
feeding the weighted-random selectors, generateTopCombinations clamps count into
[1,10] (in-range counts kept, count < 1 raised to 1, count > 10 lowered to 10,
never rejected), returns exactly the clamped number of combinations, whose ranks
after the final resort form the permutation 1..clampedCount in order, sorted by
probabilityScore descending, and each combination has 5 distinct numbers in
[1,50] and 2 distinct stars in [1,12]. -/
theorem generateTopCombinations_spec (draws : List Draw) (count : ℤ) (rndN rndS : ℕ → ℕ → ℚ) :
    (generateTopCombinations draws count rndN rndS).length = (min 10 (max 1 count)).toNat ∧
    (1 : ℤ) ≤ min 10 (max 1 count) ∧ min 10 (max 1 count) ≤ 10 ∧
    (1 ≤ count → count ≤ 10 → min 10 (max 1 count) = count) ∧
    (count < 1 → min 10 (max 1 count) = 1) ∧
    (10 < count → min 10 (max 1 count) = 10) ∧
    (generateTopCombinations draws count rndN rndS).map (fun c => c.rank) =
      List.range' 1 (generateTopCombinations draws count rndN rndS).length ∧
    List.Sorted (fun a b : GeneratedCombination =>
      b.probabilityScore.getD 0 ≤ a.probabilityScore.getD 0)
      (generateTopCombinations draws count rndN rndS) ∧
    ∀ c ∈ generateTopCombinations draws count rndN rndS,
      c.numbers.length = 5 ∧ c.numbers.Nodup ∧ (∀ x ∈ c.numbers, 1 ≤ x ∧ x ≤ 50) ∧
      c.stars.length = 2 ∧ c.stars.Nodup ∧ (∀ x ∈ c.stars, 1 ≤ x ∧ x ≤ 12) := by
  have hgen : ∀ combos : List GeneratedCombination,
      generateTopCombinations draws count rndN rndS = withRanks 0 (combos.insertionSort
        (fun a b => b.probabilityScore.getD 0 ≤ a.probabilityScore.getD 0)) →
      combos.length = (min 10 (max 1 count)).toNat →
      (∀ c ∈ combos,
        c.numbers.length = 5 ∧ c.numbers.Nodup ∧ (∀ x ∈ c.numbers, 1 ≤ x ∧ x ≤ 50) ∧
        c.stars.length = 2 ∧ c.stars.Nodup ∧ (∀ x ∈ c.stars, 1 ≤ x ∧ x ≤ 12)) →
      (generateTopCombinations draws count rndN rndS).length = (min 10 (max 1 count)).toNat ∧
      (generateTopCombinations draws count rndN rndS).map (fun c => c.rank) =
        List.range' 1 (generateTopCombinations draws count rndN rndS).length ∧
      List.Sorted (fun a b : GeneratedCombination =>
        b.probabilityScore.getD 0 ≤ a.probabilityScore.getD 0)
        (generateTopCombinations draws count rndN rndS) ∧
      ∀ c ∈ generateTopCombinations draws count rndN rndS,
        c.numbers.length = 5 ∧ c.numbers.Nodup ∧ (∀ x ∈ c.numbers, 1 ≤ x ∧ x ≤ 50) ∧
        c.stars.length = 2 ∧ c.stars.Nodup ∧ (∀ x ∈ c.stars, 1 ≤ x ∧ x ≤ 12) := by
    intro combos heq hlen hprops
    obtain ⟨k1, k2, k3, k4⟩ := genFinal_facts combos (min 10 (max 1 count)).toNat hlen hprops
    rw [heq]
    exact ⟨k1, by rw [k1]; exact k2, k3, k4⟩
  have hmain := hgen _ rfl
    (by rw [List.length_map, List.length_range])
    (by
      intro c hc
      obtain ⟨i, hi, rfl⟩ := List.mem_map.mp hc
      obtain ⟨n1, n2, n3⟩ := slotNumbers_spec draws rndN i
      obtain ⟨t1, t2, t3⟩ := slotStars_spec draws rndS i
      exact ⟨n1, n2, n3, t1, t2, t3⟩)
  obtain ⟨m1, m2, m3, m4⟩ := hmain
  exact ⟨m1, by omega, by omega, by omega, by omega, by omega, m2, m3, m4⟩
